import Mathlib

/-
  Verification development for the trtrt stochastic ray tracer.

  The Python/Taichi source is shallowly embedded over an arbitrary
  `LinearOrderedField K` (instantiated at `ℚ` for executable checks and at
  `ℝ` where transcendental functions matter).  Floating-point arithmetic is
  idealised as exact field arithmetic; the Taichi math intrinsics
  (`ti.sqrt`, `ti.sin`, ...) are threaded through as an explicit record of
  oracle functions (`RealOps`), instantiated with the genuine real functions
  over `ℝ` and with an exact rational square root over `ℚ` (all concrete
  radicands below are perfect squares, where the oracle agrees with the real
  square root).  Taichi's per-thread RNG becomes an explicit stream of
  draws.  Mutable in-place state (the BVH node arena, the scene arrays)
  becomes explicit state passing over lists.
-/

set_option maxHeartbeats 1600000

/-- 3-component vector, mirroring `taichi.math.vec3`. -/
structure Vec3 (K : Type) where
  x : K
  y : K
  z : K
deriving Repr, DecidableEq

instance {K : Type} [Add K] : Add (Vec3 K) :=
  ⟨fun a b => ⟨a.x + b.x, a.y + b.y, a.z + b.z⟩⟩

instance {K : Type} [Sub K] : Sub (Vec3 K) :=
  ⟨fun a b => ⟨a.x - b.x, a.y - b.y, a.z - b.z⟩⟩

instance {K : Type} [Neg K] : Neg (Vec3 K) :=
  ⟨fun a => ⟨-a.x, -a.y, -a.z⟩⟩

instance {K : Type} [Mul K] : SMul K (Vec3 K) :=
  ⟨fun c a => ⟨c * a.x, c * a.y, c * a.z⟩⟩

instance {K : Type} [Mul K] : Mul (Vec3 K) :=
  ⟨fun a b => ⟨a.x * b.x, a.y * b.y, a.z * b.z⟩⟩

/-- `v.dot w` as in taichi. -/
def Vec3.dot {K : Type} [CommRing K] (a b : Vec3 K) : K :=
  a.x * b.x + a.y * b.y + a.z * b.z

/-- `v.cross w` as in taichi. -/
def Vec3.cross {K : Type} [CommRing K] (a b : Vec3 K) : Vec3 K :=
  ⟨a.y * b.z - a.z * b.y, a.z * b.x - a.x * b.z, a.x * b.y - a.y * b.x⟩

/-- Component access `v[i]` for `i = 0,1,2` (taichi vector indexing). -/
def Vec3.comp {K : Type} (a : Vec3 K) : Fin 3 → K
  | 0 => a.x
  | 1 => a.y
  | 2 => a.z

/-- Component-wise `ti.min`. -/
def Vec3.cmin {K : Type} [LinearOrder K] (a b : Vec3 K) : Vec3 K :=
  ⟨min a.x b.x, min a.y b.y, min a.z b.z⟩

/-- Component-wise `ti.max`. -/
def Vec3.cmax {K : Type} [LinearOrder K] (a b : Vec3 K) : Vec3 K :=
  ⟨max a.x b.x, max a.y b.y, max a.z b.z⟩

def Vec3.zero (K : Type) [Zero K] : Vec3 K := ⟨0, 0, 0⟩

/-- Oracle record standing for the taichi float math intrinsics.  Over `ℝ`
it is instantiated with the genuine functions; proofs that do not depend on
a particular intrinsic are stated for every oracle. -/
structure RealOps (K : Type) where
  sqrt : K → K
  sin : K → K
  cos : K → K
  acos : K → K
  asin : K → K
  atan2 : K → K → K
  tan : K → K
  pi : K

/-- `v.norm()` (taichi): square root of the dot square. -/
def Vec3.norm {K : Type} [CommRing K] (ops : RealOps K) (a : Vec3 K) : K :=
  ops.sqrt (a.dot a)

/-- `v.normalized()` (taichi): `v / v.norm()` component-wise. -/
def Vec3.normalized {K : Type} [Field K] [LinearOrder K] (ops : RealOps K)
    (a : Vec3 K) : Vec3 K :=
  ⟨a.x / a.norm ops, a.y / a.norm ops, a.z / a.norm ops⟩

/-- Constant `TMIN = 1e-3` from `utils/const.py`. -/
def TMIN (K : Type) [DivisionRing K] : K := 1 / 1000

/-- Constant `TMAX = 1e8` from `utils/const.py`. -/
def TMAX (K : Type) [DivisionRing K] : K := 100000000

/-- Constant `EPSILON = 1e-6` from `utils/const.py`. -/
def EPSILON (K : Type) [DivisionRing K] : K := 1 / 1000000

/-- `Ray` from `objects/lights.py`. -/
structure Ray (K : Type) where
  origin : Vec3 K
  dir : Vec3 K
deriving Repr, DecidableEq

/-- `Ray.at` from `objects/lights.py`: `origin + t * dir`. -/
def Ray.at {K : Type} [CommRing K] (r : Ray K) (t : K) : Vec3 K :=
  r.origin + t • r.dir

/-- `PBRMaterial` from `objects/pbr.py`. -/
structure PBRMaterial (K : Type) where
  albedo : Vec3 K
  metallic : K
  roughness : K
  emission : Vec3 K
deriving Repr, DecidableEq

/-- `HitInfo` record from `records/hitinfo.py`. -/
structure HitInfo (K : Type) where
  is_hit : Bool
  time : K
  pos : Vec3 K
  normal : Vec3 K
  front : Bool
  tag : ℤ
  u : K
  v : K
  albedo : Vec3 K
  metallic : K
  roughness : K
  emission : Vec3 K
  refraction : K
deriving Repr, DecidableEq

/-- `HitInfo(time=tmax)`: every other field takes the taichi zero default. -/
def HitInfo.atTime {K : Type} [DivisionRing K] (t : K) : HitInfo K :=
  ⟨false, t, Vec3.zero K, Vec3.zero K, false, 0, 0, 0, Vec3.zero K, 0, 0,
    Vec3.zero K, 0⟩

/-- `BVHHitInfo` record from `records/hitinfo.py`. -/
structure BVHHitInfo (K : Type) where
  is_hit : Bool
  tmin : K
  tmax : K
deriving Repr, DecidableEq

/-- `AABB` from `core/geometry/bvh.py`. -/
structure AABB (K : Type) where
  min : Vec3 K
  max : Vec3 K
deriving Repr, DecidableEq

/-- `AABB.union` from `core/geometry/bvh.py`: component-wise min / max. -/
def AABB.union {K : Type} [LinearOrder K] (a b : AABB K) : AABB K :=
  ⟨a.min.cmin b.min, a.max.cmax b.max⟩

/-- One axis step of the slab loop in `AABB.intersect`
(`core/geometry/bvh.py`): state is `(is_hit, box_tmin, box_tmax)`. -/
def AABB.slabStep {K : Type} [LinearOrderedField K] (a : AABB K) (ray : Ray K)
    (i : Fin 3) : Bool × K × K → Bool × K × K :=
  fun s =>
    let inv_d := 1 / ray.dir.comp i
    let t0 := (a.min.comp i - ray.origin.comp i) * inv_d
    let t1 := (a.max.comp i - ray.origin.comp i) * inv_d
    let lo := if t0 < t1 then Max.max t0 s.2.1 else Max.max t1 s.2.1
    let hi := if t0 < t1 then Min.min t1 s.2.2 else Min.min t0 s.2.2
    (s.1 && decide (lo ≤ hi), lo, hi)

/-- `AABB.intersect` from `core/geometry/bvh.py`: three slab iterations
(`for i in range(3)`), the running interval starting at `[tmin, tmax]`. -/
def AABB.intersect {K : Type} [LinearOrderedField K] (a : AABB K) (ray : Ray K)
    (tmin tmax : K) : BVHHitInfo K :=
  let s := a.slabStep ray 2 (a.slabStep ray 1 (a.slabStep ray 0
    (true, tmin, tmax)))
  ⟨s.1, s.2.1, s.2.2⟩

/-- `Triangle` entity from `objects/entities.py`. -/
structure Triangle (K : Type) where
  tag : ℤ
  v0 : Vec3 K
  v1 : Vec3 K
  v2 : Vec3 K
  bbox : AABB K
  pbr : PBRMaterial K
deriving Repr, DecidableEq

/-- `Triangle.intersect` (Möller-Trumbore) from `objects/entities.py`. -/
def Triangle.intersect {K : Type} [LinearOrderedField K] (ops : RealOps K)
    (self : Triangle K) (ray : Ray K) (tmin tmax : K) : HitInfo K :=
  let edge1 := self.v1 - self.v0
  let edge2 := self.v2 - self.v0
  let oc := ray.origin - self.v0
  let s1 := ray.dir.cross edge2
  let s2 := oc.cross edge1
  let divisor := s1.dot edge1
  let miss : HitInfo K :=
    ⟨false, TMAX K, Vec3.zero K, Vec3.zero K, false, self.tag, 0, 0,
      self.pbr.albedo, self.pbr.metallic, self.pbr.roughness,
      self.pbr.emission, 0⟩
  if divisor = 0 then miss
  else
    let t := s2.dot edge2 / divisor
    let b1 := s1.dot oc / divisor
    let b2 := s2.dot ray.dir / divisor
    if 0 ≤ b1 ∧ 0 ≤ b2 ∧ b1 + b2 ≤ 1 ∧ tmin < t ∧ t < tmax then
      let n0 := (edge1.cross edge2).normalized ops
      let front := decide (0 < ray.dir.dot n0)
      ⟨true, t, ray.at t, if 0 < ray.dir.dot n0 then -n0 else n0, front,
        self.tag, 0, 0, self.pbr.albedo, self.pbr.metallic,
        self.pbr.roughness, self.pbr.emission, 0⟩
    else miss

/-- `Sphere` entity from `objects/entities.py`. -/
structure Sphere (K : Type) where
  tag : ℤ
  center : Vec3 K
  radius : K
  bbox : AABB K
  pbr : PBRMaterial K
deriving Repr, DecidableEq

/-- `Sphere.intersect` from `objects/entities.py`: only the smaller
quadratic root `(-b - sqrt(disc)) / (2a + EPSILON)` is ever examined. -/
def Sphere.intersect {K : Type} [LinearOrderedField K] (ops : RealOps K)
    (self : Sphere K) (ray : Ray K) (tmin tmax : K) : HitInfo K :=
  let oc := ray.origin - self.center
  let a := ray.dir.dot ray.dir
  let b := 2 * oc.dot ray.dir
  let c := oc.dot oc - self.radius ^ 2
  let disc := b ^ 2 - 4 * a * c
  let miss : HitInfo K :=
    ⟨false, TMAX K, Vec3.zero K, Vec3.zero K, false, self.tag, 0, 0,
      self.pbr.albedo, self.pbr.metallic, self.pbr.roughness,
      self.pbr.emission, 0⟩
  if 0 < disc then
    let t := (-b - ops.sqrt disc) / (2 * a + EPSILON K)
    if tmin < t ∧ t < tmax then
      let hit_pos := ray.at t
      let n0 := (hit_pos - self.center).normalized ops
      let front := decide (0 < ray.dir.dot n0)
      ⟨true, t, hit_pos, if 0 < ray.dir.dot n0 then -n0 else n0, front,
        self.tag,
        1 / 2 + ops.atan2 n0.z n0.x / (2 * ops.pi),
        1 / 2 - ops.asin n0.y / ops.pi,
        self.pbr.albedo, self.pbr.metallic, self.pbr.roughness,
        self.pbr.emission, 0⟩
    else miss
  else miss

/-- Exact square root on `ℚ`: agrees with the real square root whenever the
argument is a square of a rational, returns `0` otherwise.  It stands in for
`ti.sqrt` in executable checks, all of which only take square radicands. -/
def ratSqrt (q : ℚ) : ℚ :=
  let n := Nat.sqrt q.num.natAbs
  let d := Nat.sqrt q.den
  if 0 ≤ q.num ∧ n * n = q.num.natAbs ∧ d * d = q.den then
    (n : ℚ) / (d : ℚ)
  else 0

/-- Rational instantiation of the intrinsic oracle; the transcendental
entries are junk (no executable check below reads them). -/
def ratOps : RealOps ℚ :=
  ⟨ratSqrt, fun _ => 0, fun _ => 0, fun _ => 0, fun _ => 0, fun _ _ => 0,
    fun _ => 0, 0⟩

/-- Real instantiation of the intrinsic oracle. -/
noncomputable def realOps : RealOps ℝ :=
  ⟨Real.sqrt, Real.sin, Real.cos, Real.arccos, Real.arcsin,
    fun y x => Complex.arg ⟨x, y⟩, Real.tan, Real.pi⟩

/-- `DirecLight` from `objects/lights.py`. -/
structure DirecLight (K : Type) where
  dir : Vec3 K
  color : Vec3 K
deriving Repr, DecidableEq

/-- Modelled from the spec: the `AmbientLight` class is imported by
`scene.py` from the objects package but its defining module is not present;
per the spec the Scene owns an "ambient-light color", so the ambient light
is a single colour value. -/
structure AmbientLight (K : Type) where
  color : Vec3 K
deriving Repr, DecidableEq

/-- A scene object behind the `Abstraction` wrapper of `utils/abstract.py`:
either a `Triangle` or a `Sphere` (the shape tag is derived from the
concrete type, as `Abstraction.map_shape` does). -/
inductive Obj (K : Type) where
  | tri (t : Triangle K)
  | sph (s : Sphere K)
deriving Repr, DecidableEq

/-- `obj.entity.bbox`. -/
def Obj.bbox {K : Type} : Obj K → AABB K
  | .tri t => t.bbox
  | .sph s => s.bbox

/-- `obj.shape == ObjectShape.TRIANGLE`. -/
def Obj.isTriangle {K : Type} : Obj K → Bool
  | .tri _ => true
  | .sph _ => false

/-- `obj.tag` (the entity's material tag; `ObjectTag.PBR = 0`). -/
def Obj.tag {K : Type} : Obj K → ℤ
  | .tri t => t.tag
  | .sph s => s.tag

/-- `obj.entity.emission`. -/
def Obj.emission {K : Type} : Obj K → Vec3 K
  | .tri t => t.pbr.emission
  | .sph s => s.pbr.emission

/-- Dispatching `intersect` on the concrete entity. -/
def Obj.intersect {K : Type} [LinearOrderedField K] (ops : RealOps K)
    (o : Obj K) (ray : Ray K) (tmin tmax : K) : HitInfo K :=
  match o with
  | .tri t => t.intersect ops ray tmin tmax
  | .sph s => s.intersect ops ray tmin tmax

/-- `sort_key` from `core/geometry/bvh.py`: triangles sort by the bounding
box minimum on the chosen axis, spheres by the same value offset by
`2 * TMAX`. -/
def sortKey {K : Type} [LinearOrderedField K] (o : Obj K) (axis : Fin 3) : K :=
  match o with
  | .tri t => t.bbox.min.comp axis
  | .sph s => s.bbox.min.comp axis + 2 * TMAX K

/-- `sort_objects` from `core/geometry/bvh.py`: Python's stable `sorted`
with key `sort_key`, embedded as a stable merge sort. -/
def sortObjects {K : Type} [LinearOrderedField K] (objs : List (Obj K))
    (axis : Fin 3) : List (Obj K) :=
  objs.mergeSort (fun a b => decide (sortKey a axis ≤ sortKey b axis))

theorem length_sortObjects {K : Type} [LinearOrderedField K]
    (objs : List (Obj K)) (axis : Fin 3) :
    (sortObjects objs axis).length = objs.length :=
  (List.mergeSort_perm objs _).length_eq

/-- `BVHNode` from `core/geometry/bvh.py`. -/
structure BVHNode (K : Type) where
  aabb : AABB K
  left_id : ℤ
  right_id : ℤ
  obj_id : ℤ
deriving Repr, DecidableEq

def BVHNode.dummy (K : Type) [DivisionRing K] : BVHNode K :=
  ⟨⟨Vec3.zero K, Vec3.zero K⟩, -1, -1, -1⟩

/-- `BVH._build` from `core/geometry/bvh.py`, recursion over the object
sub-range.  The in-place reordering of the shared object list becomes the
returned reordered list; the `randint(0,2)` axis draws become the explicit
`axes` stream (consumed in the same pre-order); the flat node arena becomes
the returned node list, whose head is this call's node (allocated at index
`used`, children following contiguously).  Returns
`(reordered objects, allocated nodes, remaining axis stream)`. -/
def bvhBuildAux {K : Type} [LinearOrderedField K] (axes : List (Fin 3))
    (objs : List (Obj K)) (start used : ℕ) :
    List (Obj K) × List (BVHNode K) × List (Fin 3) :=
  match h : objs with
  | [] => ([], [], axes)
  | [o] => ([o], [⟨o.bbox, -1, -1, (start : ℤ)⟩], axes)
  | _ :: _ :: _ =>
    let axis := axes.headD 0
    let rest := axes.tail
    let sorted := sortObjects objs axis
    let m := objs.length / 2
    let lres := bvhBuildAux rest (sorted.take m) start (used + 1)
    let rres := bvhBuildAux lres.2.2 (sorted.drop m) (start + m)
      (used + 1 + lres.2.1.length)
    let aabbL := (lres.2.1.headD (BVHNode.dummy K)).aabb
    let aabbR := (rres.2.1.headD (BVHNode.dummy K)).aabb
    let node : BVHNode K :=
      ⟨aabbL.union aabbR, (used : ℤ) + 1, (used : ℤ) + 1 + lres.2.1.length, -1⟩
    (lres.1 ++ rres.1, node :: (lres.2.1 ++ rres.2.1), rres.2.2)
termination_by objs.length
decreasing_by
  all_goals simp [List.length_take, List.length_drop, length_sortObjects, h]
  all_goals omega

/-- `BVH.build`: builds from the full range; the root is allocated first,
so `root_id = 0` (for a non-empty object list). -/
def bvhBuild {K : Type} [LinearOrderedField K] (axes : List (Fin 3))
    (objs : List (Obj K)) : List (Obj K) × List (BVHNode K) :=
  let r := bvhBuildAux axes objs 0 0
  (r.1, r.2.1)

/-- The triangle branch of the shape dispatch in `Scene.make`. -/
def Obj.asTri {K : Type} : Obj K → Option (Triangle K)
  | .tri t => some t
  | .sph _ => none

/-- The sphere branch of the shape dispatch in `Scene.make`. -/
def Obj.asSph {K : Type} : Obj K → Option (Sphere K)
  | .tri _ => none
  | .sph s => some s

/-- The read-only data of a `Scene` after `make()`. -/
structure SceneData (K : Type) where
  triangles : List (Triangle K)
  spheres : List (Sphere K)
  nodes : List (BVHNode K)
  root_id : ℤ
  light_map : List ℕ
  ambient_light : AmbientLight K
  directional_light : DirecLight K
deriving Repr, DecidableEq

/-- `obj.tag == ObjectTag.PBR and obj.entity.emission.norm() > 0.0`. -/
def Obj.isEmitter {K : Type} [LinearOrderedField K] (ops : RealOps K)
    (o : Obj K) : Bool :=
  o.tag = 0 && decide (0 < (o.emission).norm ops)

/-- `Scene.make` from `scene.py` (the population pass): the object list is
first reordered by the BVH build, then the per-type arrays and the light
table are filled by one enumeration of the reordered list. -/
def sceneMake {K : Type} [LinearOrderedField K] (ops : RealOps K)
    (axes : List (Fin 3)) (objs : List (Obj K)) (amb : AmbientLight K)
    (dl : DirecLight K) : SceneData K :=
  let b := bvhBuild axes objs
  { triangles := b.1.filterMap Obj.asTri
    spheres := b.1.filterMap Obj.asSph
    nodes := b.2
    root_id := 0
    light_map := (b.1.enum.filter fun p => p.2.isEmitter ops).map Prod.fst
    ambient_light := amb
    directional_light := dl }

/-- The body of the two linear loops of `Scene.bruteforce_intersect`:
intersect one primitive against the interval clipped by the current best
hit and keep the closer of the two. -/
def primFold {K : Type} [LinearOrderedField K] (ops : RealOps K) (ray : Ray K)
    (tmin : K) (best : HitInfo K) (o : Obj K) : HitInfo K :=
  let tmp := o.intersect ops ray tmin best.time
  if tmp.is_hit ∧ tmp.time < best.time then tmp else best

/-- `Scene.bruteforce_intersect` from `scene.py`: a linear scan over the
triangle array followed by the sphere array. -/
def SceneData.bruteforce_intersect {K : Type} [LinearOrderedField K]
    (ops : RealOps K) (sc : SceneData K) (ray : Ray K) (tmin tmax : K) :
    HitInfo K :=
  let afterTris := sc.triangles.foldl
    (fun best t =>
      let tmp := t.intersect ops ray tmin best.time
      if tmp.is_hit ∧ tmp.time < best.time then tmp else best)
    (HitInfo.atTime tmax)
  sc.spheres.foldl
    (fun best s =>
      let tmp := s.intersect ops ray tmin best.time
      if tmp.is_hit ∧ tmp.time < best.time then tmp else best)
    afterTris

/-- `Scene.intersect` from `scene.py` delegates to the brute-force scan. -/
def SceneData.intersect {K : Type} [LinearOrderedField K] (ops : RealOps K)
    (sc : SceneData K) (ray : Ray K) (tmin tmax : K) : HitInfo K :=
  sc.bruteforce_intersect ops ray tmin tmax

/-- The explicit-stack loop of `Scene.bvh_intersect`, with the loop counter
made explicit as fuel (the loop runs at most once per node of a built tree;
the wrapper supplies ample fuel).  State: the stack of node ids (head =
top), the current best hit `hitinfo`, and the scratch `hitinfo_tmp`
(which the source keeps across iterations). -/
def SceneData.traverse {K : Type} [LinearOrderedField K] (ops : RealOps K)
    (sc : SceneData K) (ray : Ray K) (tmin : K) :
    ℕ → List ℤ → HitInfo K → HitInfo K → HitInfo K
  | 0, _, best, _ => best
  | _ + 1, [], best, _ => best
  | fuel + 1, id :: rest, best, tmp =>
    if id = -1 then sc.traverse ops ray tmin fuel rest best tmp
    else
      match sc.nodes.get? id.toNat with
      | none => sc.traverse ops ray tmin fuel rest best tmp
      | some node =>
        let ah := node.aabb.intersect ray tmin best.time
        if ¬ah.is_hit ∨ best.time ≤ ah.tmin then
          sc.traverse ops ray tmin fuel rest best tmp
        else if node.obj_id ≠ -1 then
          let tmp' :=
            if node.obj_id < (sc.triangles.length : ℤ) then
              match sc.triangles.get? node.obj_id.toNat with
              | some t => t.intersect ops ray tmin best.time
              | none => tmp
            else if node.obj_id <
                (sc.triangles.length : ℤ) + (sc.spheres.length : ℤ) then
              match sc.spheres.get?
                  (node.obj_id - (sc.triangles.length : ℤ)).toNat with
              | some s => s.intersect ops ray tmin best.time
              | none => tmp
            else tmp
          let best' := if tmp'.is_hit ∧ tmp'.time < best.time then tmp' else best
          sc.traverse ops ray tmin fuel rest best' tmp'
        else
          let pushed :=
            (if node.left_id ≠ -1 then [node.left_id] else []) ++
              (if node.right_id ≠ -1 then [node.right_id] else []) ++ rest
          sc.traverse ops ray tmin fuel pushed best tmp

/-- `Scene.bvh_intersect` from `scene.py`: start from the root with the
no-hit sentinel `HitInfo(time=tmax)`. -/
def SceneData.bvh_intersect {K : Type} [LinearOrderedField K]
    (ops : RealOps K) (sc : SceneData K) (ray : Ray K) (tmin tmax : K) :
    HitInfo K :=
  sc.traverse ops ray tmin (2 * sc.nodes.length + 2) [sc.root_id]
    (HitInfo.atTime tmax) (HitInfo.atTime tmax)

theorem Vec3.add_x {K : Type} [Add K] (a b : Vec3 K) : (a + b).x = a.x + b.x := rfl

theorem Vec3.add_y {K : Type} [Add K] (a b : Vec3 K) : (a + b).y = a.y + b.y := rfl

theorem Vec3.add_z {K : Type} [Add K] (a b : Vec3 K) : (a + b).z = a.z + b.z := rfl

theorem Vec3.sub_x {K : Type} [Sub K] (a b : Vec3 K) : (a - b).x = a.x - b.x := rfl

theorem Vec3.sub_y {K : Type} [Sub K] (a b : Vec3 K) : (a - b).y = a.y - b.y := rfl

theorem Vec3.sub_z {K : Type} [Sub K] (a b : Vec3 K) : (a - b).z = a.z - b.z := rfl

theorem Vec3.neg_x {K : Type} [Neg K] (a : Vec3 K) : (-a).x = -a.x := rfl

theorem Vec3.neg_y {K : Type} [Neg K] (a : Vec3 K) : (-a).y = -a.y := rfl

theorem Vec3.neg_z {K : Type} [Neg K] (a : Vec3 K) : (-a).z = -a.z := rfl

theorem Vec3.smul_x {K : Type} [Mul K] (c : K) (a : Vec3 K) : (c • a).x = c * a.x := rfl

theorem Vec3.smul_y {K : Type} [Mul K] (c : K) (a : Vec3 K) : (c • a).y = c * a.y := rfl

theorem Vec3.smul_z {K : Type} [Mul K] (c : K) (a : Vec3 K) : (c • a).z = c * a.z := rfl

theorem Vec3.mul_x {K : Type} [Mul K] (a b : Vec3 K) : (a * b).x = a.x * b.x := rfl

theorem Vec3.mul_y {K : Type} [Mul K] (a b : Vec3 K) : (a * b).y = a.y * b.y := rfl

theorem Vec3.mul_z {K : Type} [Mul K] (a b : Vec3 K) : (a * b).z = a.z * b.z := rfl

attribute [simp] Vec3.add_x Vec3.add_y Vec3.add_z Vec3.sub_x Vec3.sub_y
  Vec3.sub_z Vec3.neg_x Vec3.neg_y Vec3.neg_z Vec3.smul_x Vec3.smul_y
  Vec3.smul_z Vec3.mul_x Vec3.mul_y Vec3.mul_z

/-- A rational intrinsic oracle with a chosen square-root table (the other
intrinsics are unused by the geometry code). -/
def qOps (f : ℚ → ℚ) : RealOps ℚ :=
  ⟨f, fun _ => 0, fun _ => 0, fun _ => 0, fun _ => 0, fun _ _ => 0,
    fun _ => 0, 0⟩

/-- Zero material. -/
def pbr0 : PBRMaterial ℚ := ⟨⟨0, 0, 0⟩, 0, 0, ⟨0, 0, 0⟩⟩

/-- The triangle `(0,0,0), (1,0,0), (0,1,0)` of the spec's unit test. -/
def triC3 : Triangle ℚ :=
  ⟨0, ⟨0, 0, 0⟩, ⟨1, 0, 0⟩, ⟨0, 1, 0⟩, ⟨⟨0, 0, 0⟩, ⟨0, 0, 0⟩⟩, pbr0⟩

/-- The ray origin `(0.25, 0.25, 1)`, direction `(0,0,-1)`. -/
def rayC3 : Ray ℚ := ⟨⟨1 / 4, 1 / 4, 1⟩, ⟨0, 0, -1⟩⟩

/-- C3: on the spec's own triangle unit test the code reports the hit at
`t = 1` as required, but with `front = false`: `Triangle.intersect` sets
`front` from `ray.dir · normal > 0`, which is true exactly on back-face
hits, so the flag is inverted relative to the spec's front-face semantics
(the sqrt-oracle conjuncts certify the rational oracle agrees with the
true square root on the one radicand this evaluation consumes). -/
theorem triangle_unit_test_inverted_front :
    (triC3.intersect (qOps fun q => if q = 1 then 1 else 0) rayC3
        (TMIN ℚ) (TMAX ℚ)).is_hit = true ∧
    (triC3.intersect (qOps fun q => if q = 1 then 1 else 0) rayC3
        (TMIN ℚ) (TMAX ℚ)).time = 1 ∧
    (triC3.intersect (qOps fun q => if q = 1 then 1 else 0) rayC3
        (TMIN ℚ) (TMAX ℚ)).front = false ∧
    ((1 : ℚ) ^ 2 = 1 ∧ (0 : ℚ) ≤ 1) := by
  norm_num [Triangle.intersect, triC3, rayC3, qOps, pbr0, TMIN, TMAX,
    Vec3.dot, Vec3.cross, Vec3.normalized, Vec3.norm, Ray.at, HitInfo.atTime]

/-- C4 (amended): `Sphere.intersect` examines only the epsilon-perturbed
near root `(-b - sqrt(disc)) / (2a + EPSILON)`; it reports a hit exactly
when the discriminant is positive and that one value lies strictly inside
`(tmin, tmax)`, and then that value is the reported hit time.  In
particular no far root is ever consulted. -/
theorem sphere_intersect_near_root_only {K : Type} [LinearOrderedField K]
    (ops : RealOps K) (s : Sphere K) (ray : Ray K) (tmin tmax : K) :
    (s.intersect ops ray tmin tmax).is_hit =
      (decide (0 < (2 * (ray.origin - s.center).dot ray.dir) ^ 2 -
          4 * (ray.dir.dot ray.dir) *
            ((ray.origin - s.center).dot (ray.origin - s.center) -
              s.radius ^ 2)) &&
        decide (tmin <
          (-(2 * (ray.origin - s.center).dot ray.dir) -
              ops.sqrt ((2 * (ray.origin - s.center).dot ray.dir) ^ 2 -
                4 * (ray.dir.dot ray.dir) *
                  ((ray.origin - s.center).dot (ray.origin - s.center) -
                    s.radius ^ 2))) /
            (2 * ray.dir.dot ray.dir + EPSILON K)) &&
        decide ((-(2 * (ray.origin - s.center).dot ray.dir) -
              ops.sqrt ((2 * (ray.origin - s.center).dot ray.dir) ^ 2 -
                4 * (ray.dir.dot ray.dir) *
                  ((ray.origin - s.center).dot (ray.origin - s.center) -
                    s.radius ^ 2))) /
            (2 * ray.dir.dot ray.dir + EPSILON K) < tmax)) ∧
    ((s.intersect ops ray tmin tmax).is_hit = true →
      (s.intersect ops ray tmin tmax).time =
        (-(2 * (ray.origin - s.center).dot ray.dir) -
            ops.sqrt ((2 * (ray.origin - s.center).dot ray.dir) ^ 2 -
              4 * (ray.dir.dot ray.dir) *
                ((ray.origin - s.center).dot (ray.origin - s.center) -
                  s.radius ^ 2))) /
          (2 * ray.dir.dot ray.dir + EPSILON K)) := by
  unfold Sphere.intersect
  dsimp only
  split_ifs with h1 h2 <;>
    simp_all [decide_eq_true_eq]

/-- The unit sphere at the origin. -/
def sC4 : Sphere ℚ := ⟨0, ⟨0, 0, 0⟩, 1, ⟨⟨-1, -1, -1⟩, ⟨1, 1, 1⟩⟩, pbr0⟩

/-- A ray starting at the sphere's center. -/
def rayC4 : Ray ℚ := ⟨⟨0, 0, 0⟩, ⟨0, 0, -1⟩⟩

/-- C4 counterexample: for the unit sphere and a ray from its center the
quadratic root `t = 1` lies inside `(TMIN, TMAX)` (the point at `t = 1`
satisfies `|o + t d - c|^2 = r^2`), yet `Sphere.intersect` reports a miss,
because the near root is negative and the far root is never tried.  The
final conjuncts certify the sqrt oracle used (`4 ↦ 2`) is exact. -/
theorem sphere_far_root_missed :
    (sC4.intersect (qOps fun q => if q = 4 then 2 else 0) rayC4
        (TMIN ℚ) (TMAX ℚ)).is_hit = false ∧
    (rayC4.at 1 - sC4.center).dot (rayC4.at 1 - sC4.center) =
      sC4.radius ^ 2 ∧
    TMIN ℚ < 1 ∧ (1 : ℚ) < TMAX ℚ ∧ ((2 : ℚ) ^ 2 = 4 ∧ (0 : ℚ) ≤ 2) := by
  norm_num [Sphere.intersect, sC4, rayC4, qOps, pbr0, TMIN, TMAX, EPSILON,
    Vec3.dot, Ray.at, HitInfo.atTime]

/-- C4 witness-style check of the characterization on a concrete hit: the
spec's sphere test (centre origin, radius 1, ray from `(0,0,5)` toward it)
evaluated through the characterization theorem. -/
theorem sphere_intersect_near_root_only_witness :
    ((Sphere.intersect (qOps fun q => if q = 4 then 2 else 0)
        ⟨0, ⟨0, 0, 0⟩, 1, ⟨⟨-1, -1, -1⟩, ⟨1, 1, 1⟩⟩, pbr0⟩
        ⟨⟨0, 0, 5⟩, ⟨0, 0, -1⟩⟩ (TMIN ℚ) (TMAX ℚ)).is_hit = true) ∧
    ((Sphere.intersect (qOps fun q => if q = 4 then 2 else 0)
        ⟨0, ⟨0, 0, 0⟩, 1, ⟨⟨-1, -1, -1⟩, ⟨1, 1, 1⟩⟩, pbr0⟩
        ⟨⟨0, 0, 5⟩, ⟨0, 0, -1⟩⟩ (TMIN ℚ) (TMAX ℚ)).time =
      8000000 / 2000001) := by
  have h := sphere_intersect_near_root_only
    (qOps fun q => if q = 4 then 2 else 0)
    ⟨0, ⟨0, 0, 0⟩, 1, ⟨⟨-1, -1, -1⟩, ⟨1, 1, 1⟩⟩, pbr0⟩
    ⟨⟨0, 0, 5⟩, ⟨0, 0, -1⟩⟩ (TMIN ℚ) (TMAX ℚ)
  norm_num [qOps, TMIN, TMAX, EPSILON, Vec3.dot] at h
  exact ⟨h.1, h.2 h.1⟩

theorem AABB.union_assoc {K : Type} [LinearOrder K] (a b c : AABB K) :
    (a.union b).union c = a.union (b.union c) := by
  simp [AABB.union, Vec3.cmin, Vec3.cmax, min_assoc, max_assoc]

theorem AABB.union_comm {K : Type} [LinearOrder K] (a b : AABB K) :
    a.union b = b.union a := by
  simp [AABB.union, Vec3.cmin, Vec3.cmax, min_comm, max_comm]

/-- The component-wise union of the bounding boxes of a non-empty object
list (left fold, as produced by repeated `AABB.union`). -/
def aabbUnionList {K : Type} [LinearOrderedField K] : List (Obj K) → AABB K
  | [] => ⟨Vec3.zero K, Vec3.zero K⟩
  | o :: rest => rest.foldl (fun acc x => acc.union x.bbox) o.bbox

theorem aabbUnionFold_hoist {K : Type} [LinearOrderedField K]
    (l : List (Obj K)) (a b : AABB K) :
    l.foldl (fun acc x => acc.union x.bbox) (a.union b) =
      a.union (l.foldl (fun acc x => acc.union x.bbox) b) := by
  induction l generalizing b with
  | nil => rfl
  | cons o rest ih =>
    simp only [List.foldl_cons, AABB.union_assoc]
    exact ih (b.union o.bbox)


theorem aabbUnionList_append {K : Type} [LinearOrderedField K]
    (l₁ l₂ : List (Obj K)) (h₁ : l₁ ≠ []) (h₂ : l₂ ≠ []) :
    aabbUnionList (l₁ ++ l₂) = (aabbUnionList l₁).union (aabbUnionList l₂) := by
  match l₁, l₂ with
  | o₁ :: r₁, o₂ :: r₂ =>
    show List.foldl (fun acc x => acc.union x.bbox) o₁.bbox (r₁ ++ o₂ :: r₂) =
      (List.foldl (fun acc x => acc.union x.bbox) o₁.bbox r₁).union
        (List.foldl (fun acc x => acc.union x.bbox) o₂.bbox r₂)
    rw [List.foldl_append, List.foldl_cons]
    exact aabbUnionFold_hoist r₂ _ _

theorem aabbUnionList_perm {K : Type} [LinearOrderedField K]
    {l₁ l₂ : List (Obj K)} (h : l₁.Perm l₂) :
    aabbUnionList l₁ = aabbUnionList l₂ := by
  have rcomm : ∀ (b : AABB K) (a₁ a₂ : Obj K),
      (b.union a₁.bbox).union a₂.bbox = (b.union a₂.bbox).union a₁.bbox := by
    intro b a₁ a₂
    rw [AABB.union_assoc, AABB.union_assoc, AABB.union_comm a₁.bbox]
  induction h with
  | nil => rfl
  | cons o hp ih =>
    rename_i t₁ t₂
    show List.foldl _ o.bbox t₁ = List.foldl _ o.bbox t₂
    exact @List.Perm.foldl_eq _ _ _ _ _ ⟨rcomm⟩ hp o.bbox
  | swap a b l =>
    show List.foldl _ b.bbox (a :: l) = List.foldl _ a.bbox (b :: l)
    simp only [List.foldl_cons]
    rw [AABB.union_comm b.bbox a.bbox]
  | trans _ _ ih₁ ih₂ => exact ih₁.trans ih₂

/-- The combined post-conditions of `BVH._build` on a non-empty range: the
reordered range has the same length and multiset as the input, exactly
`2n - 1` nodes are allocated (the Python `used_nodes` counter advances by
one per allocated node, so it ends at `2n - 1` for a full build), and the
first allocated node (this call's root) carries the union of all the
range's primitive bounding boxes. -/
theorem bvhBuildAux_spec {K : Type} [LinearOrderedField K] :
    ∀ (n : ℕ) (axes : List (Fin 3)) (objs : List (Obj K)) (start used : ℕ),
    objs.length = n → objs ≠ [] →
    (bvhBuildAux axes objs start used).1.length = objs.length ∧
    (bvhBuildAux axes objs start used).1.Perm objs ∧
    (bvhBuildAux axes objs start used).2.1.length = 2 * objs.length - 1 ∧
    ((bvhBuildAux axes objs start used).2.1.headD (BVHNode.dummy K)).aabb =
      aabbUnionList (bvhBuildAux axes objs start used).1 := by
  intro n
  induction n using Nat.strong_induction_on with
  | _ n ih =>
    intro axes objs start used hlen hne
    match objs, hne with
    | [o], _ =>
      simp [bvhBuildAux, aabbUnionList]
    | o₁ :: o₂ :: tl, _ =>
      have hS_len : ∀ ax : Fin 3,
          (sortObjects (o₁ :: o₂ :: tl) ax).length = tl.length + 2 := by
        intro ax
        rw [length_sortObjects]
        simp
      set ax := (axes.headD 0) with hax
      set S := sortObjects (o₁ :: o₂ :: tl) ax with hS
      set N := (o₁ :: o₂ :: tl).length with hN
      set M := N / 2 with hM
      have hN2 : N = tl.length + 2 := by simp [hN]
      have htake_len : (S.take M).length = M := by
        rw [List.length_take, hS, hS_len]
        omega
      have hdrop_len : (S.drop M).length = N - M := by
        rw [List.length_drop, hS, hS_len, hN2]
      have htake_ne : S.take M ≠ [] :=
        List.ne_nil_of_length_pos (by rw [htake_len]; omega)
      have hdrop_ne : S.drop M ≠ [] :=
        List.ne_nil_of_length_pos (by rw [hdrop_len]; omega)
      have hMn : M < n := by omega
      have hNMn : N - M < n := by omega
      obtain ⟨l1, l2, l3, l4⟩ :=
        ih M hMn axes.tail (S.take M) start (used + 1) htake_len htake_ne
      obtain ⟨r1, r2, r3, r4⟩ :=
        ih (N - M) hNMn (bvhBuildAux axes.tail (S.take M) start (used + 1)).2.2
          (S.drop M) (start + M)
          (used + 1 + (bvhBuildAux axes.tail (S.take M) start (used + 1)).2.1.length)
          hdrop_len hdrop_ne
      have hl1ne : (bvhBuildAux axes.tail (S.take M) start (used + 1)).1 ≠ [] := by
        apply List.ne_nil_of_length_pos
        rw [l1, htake_len]
        omega
      have hr1ne : (bvhBuildAux (bvhBuildAux axes.tail (S.take M) start (used + 1)).2.2
          (S.drop M) (start + M)
          (used + 1 + (bvhBuildAux axes.tail (S.take M) start (used + 1)).2.1.length)).1 ≠ [] := by
        apply List.ne_nil_of_length_pos
        rw [r1, hdrop_len]
        omega
      simp only [bvhBuildAux]
      rw [← hax, ← hS, ← hN, ← hM]
      refine ⟨?_, ?_, ?_, ?_⟩
      · rw [List.length_append, l1, r1, htake_len, hdrop_len]
        omega
      · refine (l2.append r2).trans ?_
        rw [List.take_append_drop]
        exact List.mergeSort_perm _ _
      · rw [List.length_cons, List.length_append, r3, l3, htake_len, hdrop_len]
        omega
      · rw [List.headD_cons]
        show AABB.union _ _ = _
        rw [l4, r4]
        exact (aabbUnionList_append _ _ hl1ne hr1ne).symm

/-- C2: for a non-empty object list the BVH build allocates exactly
`2n - 1` nodes (the node arena length, which is what the `used_nodes`
counter counts), and the root node (the first allocated node, at
`root_id = 0`) carries the component-wise union of all primitive bounding
boxes. -/
theorem bvh_build_node_count_and_root_aabb {K : Type} [LinearOrderedField K]
    (axes : List (Fin 3)) (objs : List (Obj K)) (h : objs ≠ []) :
    (bvhBuild axes objs).2.length = 2 * objs.length - 1 ∧
    ((bvhBuild axes objs).2.headD (BVHNode.dummy K)).aabb =
      aabbUnionList objs := by
  obtain ⟨h1, h2, h3, h4⟩ := bvhBuildAux_spec objs.length axes objs 0 0 rfl h
  exact ⟨h3, h4.trans (aabbUnionList_perm h2)⟩

/-- A first basis triangle used in concrete checks. -/
def triW1 : Triangle ℚ :=
  ⟨0, ⟨0, 0, 0⟩, ⟨1, 0, 0⟩, ⟨0, 1, 0⟩, ⟨⟨0, 0, 0⟩, ⟨1, 1, 0⟩⟩, pbr0⟩

/-- A second triangle, shifted along x. -/
def triW2 : Triangle ℚ :=
  ⟨0, ⟨2, 0, 0⟩, ⟨3, 0, 0⟩, ⟨2, 1, 0⟩, ⟨⟨2, 0, 0⟩, ⟨3, 1, 0⟩⟩, pbr0⟩

/-- C2 witness: the node-count / root-box theorem instantiated on a
concrete two-triangle scene. -/
theorem bvh_build_node_count_and_root_aabb_witness :
    (bvhBuild [0] [Obj.tri triW1, Obj.tri triW2]).2.length =
      2 * ([Obj.tri triW1, Obj.tri triW2] : List (Obj ℚ)).length - 1 ∧
    ((bvhBuild [0] [Obj.tri triW1, Obj.tri triW2]).2.headD
        (BVHNode.dummy ℚ)).aabb =
      aabbUnionList [Obj.tri triW1, Obj.tri triW2] :=
  bvh_build_node_count_and_root_aabb [0] [Obj.tri triW1, Obj.tri triW2]
    (by simp)

/-- `Triangle.centroid` / `Sphere.centroid` from `objects/entities.py`. -/
def Obj.centroid {K : Type} [LinearOrderedField K] : Obj K → Vec3 K
  | .tri t => ((1 : K) / 3) • (t.v0 + t.v1 + t.v2)
  | .sph s => s.center

theorem sortObjects_perm {K : Type} [LinearOrderedField K]
    (objs : List (Obj K)) (axis : Fin 3) :
    (sortObjects objs axis).Perm objs :=
  List.mergeSort_perm _ _

theorem sortObjects_sorted {K : Type} [LinearOrderedField K]
    (objs : List (Obj K)) (axis : Fin 3) :
    (sortObjects objs axis).Pairwise
      (fun a b => sortKey a axis ≤ sortKey b axis) := by
  unfold sortObjects
  refine (List.sorted_mergeSort ?_ ?_ objs).imp fun h => of_decide_eq_true h
  · intro a b c hab hbc
    exact decide_eq_true
      (le_trans (of_decide_eq_true hab) (of_decide_eq_true hbc))
  · intro a b
    rcases le_total (sortKey a axis) (sortKey b axis) with hle | hle <;>
      simp [hle]

/-- C5 (amended): at a multi-primitive range the build consumes the head
of the random-axis stream, reorders the range into nondecreasing order of
`sort_key` (the bounding-box minimum on that axis, spheres offset by
`2*TMAX` — not the centroid), and recurses on the two halves split at the
midpoint index `(end-start)//2` of that key-sorted range.  The first two
conjuncts specify the sort (permutation + key-sortedness), the equation
states the midpoint split recursion. -/
theorem bvh_split_sorts_by_bbox_min_and_halves {K : Type}
    [LinearOrderedField K] (objs : List (Obj K)) (axis : Fin 3)
    (axes : List (Fin 3)) (start used : ℕ) (h2 : 2 ≤ objs.length) :
    (sortObjects objs axis).Perm objs ∧
    (sortObjects objs axis).Pairwise
      (fun a b => sortKey a axis ≤ sortKey b axis) ∧
    bvhBuildAux axes objs start used =
      (let S := sortObjects objs (axes.headD 0)
       let m := objs.length / 2
       let lres := bvhBuildAux axes.tail (S.take m) start (used + 1)
       let rres := bvhBuildAux lres.2.2 (S.drop m) (start + m)
         (used + 1 + lres.2.1.length)
       let node : BVHNode K :=
         ⟨((lres.2.1.headD (BVHNode.dummy K)).aabb).union
            ((rres.2.1.headD (BVHNode.dummy K)).aabb),
          (used : ℤ) + 1, (used : ℤ) + 1 + lres.2.1.length, -1⟩
       (lres.1 ++ rres.1, node :: (lres.2.1 ++ rres.2.1), rres.2.2)) := by
  refine ⟨sortObjects_perm objs axis, sortObjects_sorted objs axis, ?_⟩
  match objs, h2 with
  | o₁ :: o₂ :: tl, _ => simp only [bvhBuildAux]

/-- C5 witness: the split theorem instantiated on the concrete
two-triangle scene. -/
theorem bvh_split_sorts_by_bbox_min_and_halves_witness :
    (sortObjects [Obj.tri triW1, Obj.tri triW2] 0).Perm
      [Obj.tri triW1, Obj.tri triW2] ∧
    (sortObjects [Obj.tri triW1, Obj.tri triW2] 0).Pairwise
      (fun a b => sortKey a 0 ≤ sortKey b 0) ∧
    bvhBuildAux [0] [Obj.tri triW1, Obj.tri triW2] 0 0 =
      (let S := sortObjects [Obj.tri triW1, Obj.tri triW2]
        (([0] : List (Fin 3)).headD 0)
       let m := ([Obj.tri triW1, Obj.tri triW2] : List (Obj ℚ)).length / 2
       let lres := bvhBuildAux ([0] : List (Fin 3)).tail (S.take m) 0 (0 + 1)
       let rres := bvhBuildAux lres.2.2 (S.drop m) (0 + m)
         (0 + 1 + lres.2.1.length)
       let node : BVHNode ℚ :=
         ⟨((lres.2.1.headD (BVHNode.dummy ℚ)).aabb).union
            ((rres.2.1.headD (BVHNode.dummy ℚ)).aabb),
          ((0 : ℕ) : ℤ) + 1, ((0 : ℕ) : ℤ) + 1 + lres.2.1.length, -1⟩
       (lres.1 ++ rres.1, node :: (lres.2.1 ++ rres.2.1), rres.2.2)) :=
  bvh_split_sorts_by_bbox_min_and_halves [Obj.tri triW1, Obj.tri triW2] 0
    [0] 0 0 (by simp)

/-- A triangle whose centroid is far right of its box minimum. -/
def triC5A : Triangle ℚ :=
  ⟨0, ⟨0, 0, 0⟩, ⟨10, 0, 0⟩, ⟨10, 1, 0⟩,
    ⟨⟨-1 / 1000, -1 / 1000, -1 / 1000⟩, ⟨10 + 1 / 1000, 1 + 1 / 1000, 1 / 1000⟩⟩,
    pbr0⟩

/-- A triangle with a larger box minimum but smaller centroid. -/
def triC5B : Triangle ℚ :=
  ⟨0, ⟨1, 0, 0⟩, ⟨2, 0, 0⟩, ⟨3, 1, 0⟩,
    ⟨⟨1 - 1 / 1000, -1 / 1000, -1 / 1000⟩, ⟨3 + 1 / 1000, 1 + 1 / 1000, 1 / 1000⟩⟩,
    pbr0⟩

/-- C5 counterexample: the build's sort leaves `[A, B]` unchanged (their
`sort_key` values, the box minima `-0.001 < 0.999`, are already in
order), yet A's centroid projection (`20/3`) exceeds B's (`2`): the code
orders by bounding-box minimum, not by centroid as claimed. -/
theorem bvh_sort_not_by_centroid :
    sortObjects [Obj.tri triC5A, Obj.tri triC5B] 0 =
      [Obj.tri triC5A, Obj.tri triC5B] ∧
    ((Obj.tri triC5B : Obj ℚ).centroid).comp 0 <
      ((Obj.tri triC5A : Obj ℚ).centroid).comp 0 := by
  constructor
  · apply List.mergeSort_of_sorted
    simp [sortKey, triC5A, triC5B, Vec3.comp]
    norm_num
  · simp [Obj.centroid, triC5A, triC5B, Vec3.comp]
    norm_num

/-- Well-formed BVH subtree in the node arena `nodes` over the (final,
build-reordered) global object list `objsG`: node `id` covers exactly the
object index range `[lo, hi)`, is a leaf (`obj_id = lo`, box = object box)
for a singleton range, and an internal node whose stored box is the union
of its children's boxes otherwise. -/
inductive IsSubtree {K : Type} [LinearOrderedField K]
    (nodes : List (BVHNode K)) (objsG : List (Obj K)) :
    ℕ → ℕ → ℕ → AABB K → Prop where
  | leaf (id lo : ℕ) (o : Obj K)
      (hobj : objsG.get? lo = some o)
      (hnode : nodes.get? id = some ⟨o.bbox, -1, -1, (lo : ℤ)⟩) :
      IsSubtree nodes objsG id lo (lo + 1) o.bbox
  | node (id lo mid hi lid rid : ℕ) (aL aR : AABB K)
      (hlm : lo < mid) (hmh : mid < hi)
      (hnode : nodes.get? id =
        some ⟨aL.union aR, (lid : ℤ), (rid : ℤ), -1⟩)
      (hleft : IsSubtree nodes objsG lid lo mid aL)
      (hright : IsSubtree nodes objsG rid mid hi aR) :
      IsSubtree nodes objsG id lo hi (aL.union aR)

/-- The leaves enumerated by `BVH._build`: every node it allocates with
`obj_id ≠ -1` stores the global index of the object now sitting at that
position of the reordered list, together with that object's box. -/
theorem bvhBuildAux_tree {K : Type} [LinearOrderedField K] :
    ∀ (n : ℕ) (axes : List (Fin 3)) (objs : List (Obj K)) (start used : ℕ),
    objs.length = n → objs ≠ [] →
    (∀ (nd : BVHNode K), nd ∈ (bvhBuildAux axes objs start used).2.1 →
      nd.obj_id ≠ -1 →
      ∃ (i : ℕ) (o : Obj K), i < objs.length ∧
        nd.obj_id = ((start + i : ℕ) : ℤ) ∧
        (bvhBuildAux axes objs start used).1.get? i = some o ∧
        nd.aabb = o.bbox) ∧
    (∀ (pre post : List (BVHNode K)) (objsG : List (Obj K)),
      pre.length = used →
      (∀ i, i < objs.length →
        objsG.get? (start + i) = (bvhBuildAux axes objs start used).1.get? i) →
      IsSubtree (pre ++ ((bvhBuildAux axes objs start used).2.1 ++ post))
        objsG used start (start + objs.length)
        (aabbUnionList (bvhBuildAux axes objs start used).1)) := by
  intro n
  induction n using Nat.strong_induction_on with
  | _ n ih =>
    intro axes objs start used hlen hne
    match objs, hne with
    | [o], _ =>
      constructor
      · intro nd hnd hleaf
        simp only [bvhBuildAux, List.mem_singleton] at hnd
        refine ⟨0, o, by simp, ?_, by simp [bvhBuildAux], by simp [hnd]⟩
        simp [hnd]
      · intro pre post objsG hpre hagree
        have h0 := hagree 0 (by simp)
        simp only [bvhBuildAux] at h0 ⊢
        show IsSubtree _ _ _ _ _ (aabbUnionList [o])
        have hab : aabbUnionList [o] = o.bbox := by simp [aabbUnionList]
        rw [hab]
        refine IsSubtree.leaf used start o (by simpa using h0) ?_
        rw [List.get?_append_right (by omega)]
        simp [hpre]
    | o₁ :: o₂ :: tl, _ =>
      have hS_len : ∀ ax : Fin 3,
          (sortObjects (o₁ :: o₂ :: tl) ax).length = tl.length + 2 := by
        intro ax
        rw [length_sortObjects]
        simp
      set ax := (axes.headD 0) with hax
      set S := sortObjects (o₁ :: o₂ :: tl) ax with hS
      set N := (o₁ :: o₂ :: tl).length with hN
      set M := N / 2 with hM
      have hN2 : N = tl.length + 2 := by simp [hN]
      have htake_len : (S.take M).length = M := by
        rw [List.length_take, hS, hS_len]
        omega
      have hdrop_len : (S.drop M).length = N - M := by
        rw [List.length_drop, hS, hS_len, hN2]
      have htake_ne : S.take M ≠ [] :=
        List.ne_nil_of_length_pos (by rw [htake_len]; omega)
      have hdrop_ne : S.drop M ≠ [] :=
        List.ne_nil_of_length_pos (by rw [hdrop_len]; omega)
      have hMn : M < n := by omega
      have hNMn : N - M < n := by omega
      obtain ⟨l1, l2, l3, l4⟩ :=
        bvhBuildAux_spec M axes.tail (S.take M) start (used + 1) htake_len
          htake_ne
      obtain ⟨r1, r2, r3, r4⟩ :=
        bvhBuildAux_spec (N - M)
          (bvhBuildAux axes.tail (S.take M) start (used + 1)).2.2
          (S.drop M) (start + M)
          (used + 1 + (bvhBuildAux axes.tail (S.take M) start (used + 1)).2.1.length)
          hdrop_len hdrop_ne
      obtain ⟨lleaf, ltree⟩ :=
        ih M hMn axes.tail (S.take M) start (used + 1) htake_len htake_ne
      obtain ⟨rleaf, rtree⟩ :=
        ih (N - M) hNMn (bvhBuildAux axes.tail (S.take M) start (used + 1)).2.2
          (S.drop M) (start + M)
          (used + 1 + (bvhBuildAux axes.tail (S.take M) start (used + 1)).2.1.length)
          hdrop_len hdrop_ne
      constructor
      · intro nd hnd hleaf
        simp only [bvhBuildAux] at hnd
        rw [← hax, ← hS, ← hN, ← hM] at hnd
        simp only [List.mem_cons, List.mem_append] at hnd
        rcases hnd with hnd | hnd | hnd
        · exfalso
          apply hleaf
          rw [hnd]
        · obtain ⟨i, o, hi, hid, hget, hab⟩ := lleaf nd hnd hleaf
          refine ⟨i, o, by omega, hid, ?_, hab⟩
          simp only [bvhBuildAux]
          rw [← hax, ← hS, ← hN, ← hM]
          rw [List.get?_append]
          · exact hget
          · rw [l1, htake_len]
            rw [htake_len] at hi
            omega
        · obtain ⟨i, o, hi, hid, hget, hab⟩ := rleaf nd hnd hleaf
          rw [hdrop_len] at hi
          refine ⟨M + i, o, by omega, by rw [hid]; congr 1; omega, ?_, hab⟩
          simp only [bvhBuildAux]
          rw [← hax, ← hS, ← hN, ← hM]
          rw [List.get?_append_right]
          · rw [l1, htake_len]
            convert hget using 2
            omega
          · rw [l1, htake_len]
            omega
      · intro pre post objsG hpre hagree
        simp only [bvhBuildAux]
        rw [← hax, ← hS, ← hN, ← hM]
        have hagreeL : ∀ i, i < (S.take M).length →
            objsG.get? (start + i) =
              (bvhBuildAux axes.tail (S.take M) start (used + 1)).1.get? i := by
          intro i hi
          rw [htake_len] at hi
          rw [hagree i (by omega)]
          simp only [bvhBuildAux]
          rw [← hax, ← hS, ← hN, ← hM]
          rw [List.get?_append]
          rw [l1, htake_len]
          omega
        have hagreeR : ∀ i, i < (S.drop M).length →
            objsG.get? (start + M + i) =
              (bvhBuildAux (bvhBuildAux axes.tail (S.take M) start (used + 1)).2.2
                (S.drop M) (start + M)
                (used + 1 +
                  (bvhBuildAux axes.tail (S.take M) start (used + 1)).2.1.length)).1.get? i := by
          intro i hi
          rw [hdrop_len] at hi
          have := hagree (M + i) (by omega)
          rw [show start + (M + i) = start + M + i by omega] at this
          rw [this]
          simp only [bvhBuildAux]
          rw [← hax, ← hS, ← hN, ← hM]
          rw [List.get?_append_right]
          · rw [l1, htake_len]
            congr 1
            omega
          · rw [l1, htake_len]
            omega
        have hl1ne : (bvhBuildAux axes.tail (S.take M) start (used + 1)).1 ≠ [] := by
          apply List.ne_nil_of_length_pos
          rw [l1, htake_len]
          omega
        have hr1ne : (bvhBuildAux (bvhBuildAux axes.tail (S.take M) start (used + 1)).2.2
            (S.drop M) (start + M)
            (used + 1 + (bvhBuildAux axes.tail (S.take M) start (used + 1)).2.1.length)).1 ≠ [] := by
          apply List.ne_nil_of_length_pos
          rw [r1, hdrop_len]
          omega
        set lres := bvhBuildAux axes.tail (S.take M) start (used + 1) with hlres
        set rres := bvhBuildAux lres.2.2 (S.drop M) (start + M)
          (used + 1 + lres.2.1.length) with hrres
        set bigNode : BVHNode K :=
          ⟨((lres.2.1.headD (BVHNode.dummy K)).aabb).union
            ((rres.2.1.headD (BVHNode.dummy K)).aabb),
           (used : ℤ) + 1, (used : ℤ) + 1 + lres.2.1.length, -1⟩ with hbig
        have hsubL := ltree (pre ++ [bigNode]) (rres.2.1 ++ post) objsG
          (by simp [hpre]) hagreeL
        have hsubR := rtree (pre ++ [bigNode] ++ lres.2.1) post objsG
          (by simp [hpre]; omega) hagreeR
        have hA1 : (pre ++ [bigNode]) ++ (lres.2.1 ++ (rres.2.1 ++ post)) =
            pre ++ ((bigNode :: (lres.2.1 ++ rres.2.1)) ++ post) := by
          simp
        have hA2 : ((pre ++ [bigNode]) ++ lres.2.1) ++ (rres.2.1 ++ post) =
            pre ++ ((bigNode :: (lres.2.1 ++ rres.2.1)) ++ post) := by
          simp
        rw [hA1, htake_len] at hsubL
        rw [hA2] at hsubR
        have hunion : aabbUnionList (lres.1 ++ rres.1) =
            (aabbUnionList lres.1).union (aabbUnionList rres.1) :=
          aabbUnionList_append _ _ hl1ne hr1ne
        rw [hunion]
        have hhi : start + M + (S.drop M).length = start + N := by
          rw [hdrop_len]
          omega
        rw [hhi] at hsubR
        refine IsSubtree.node used start (start + M) (start + N)
          (used + 1) (used + 1 + lres.2.1.length) _ _
          (by omega) (by omega) ?_ hsubL hsubR
        have hget : (pre ++ ((bigNode :: (lres.2.1 ++ rres.2.1)) ++ post)).get? used =
            some bigNode := by
          rw [List.get?_append_right (by omega)]
          simp [hpre]
        rw [hget, hbig, l4, r4]
        congr 2 <;> push_cast <;> ring


/-- "Every triangle-shaped object precedes every sphere-shaped object". -/
def triBeforeSph {K : Type} (l : List (Obj K)) : Prop :=
  l.Pairwise (fun a b => b.isTriangle = true → a.isTriangle = true)

/-- Coordinates strictly inside `(-TMAX, TMAX)` (any scene whose geometry
fits the renderer's ray interval satisfies this). -/
def boundedBoxes {K : Type} [LinearOrderedField K] (objs : List (Obj K)) : Prop :=
  ∀ o ∈ objs, ∀ ax : Fin 3,
    -TMAX K < o.bbox.min.comp ax ∧ o.bbox.min.comp ax < TMAX K

theorem sortKey_tri_lt_sph {K : Type} [LinearOrderedField K]
    (t : Triangle K) (s : Sphere K) (ax : Fin 3)
    (ht : (Obj.tri t).bbox.min.comp ax < TMAX K)
    (hs : -TMAX K < (Obj.sph s).bbox.min.comp ax) :
    sortKey (Obj.tri t) ax < sortKey (Obj.sph s) ax := by
  simp only [sortKey, Obj.bbox] at *
  linarith


theorem sortObjects_triBeforeSph {K : Type} [LinearOrderedField K]
    (objs : List (Obj K)) (axis : Fin 3) (hb : boundedBoxes objs) :
    triBeforeSph (sortObjects objs axis) := by
  refine (sortObjects_sorted objs axis).imp_of_mem ?_
  intro a b ha hbmem hkey htri
  have ha' : a ∈ objs := ((sortObjects_perm objs axis).mem_iff).mp ha
  have hb' : b ∈ objs := ((sortObjects_perm objs axis).mem_iff).mp hbmem
  match a, b with
  | Obj.tri _, _ => rfl
  | Obj.sph sa, Obj.tri tb =>
    exfalso
    have h1 := (hb _ ha' axis).1
    have h2 := (hb _ hb' axis).2
    have := sortKey_tri_lt_sph tb sa axis h2 h1
    exact absurd hkey (not_le.mpr this)
  | Obj.sph _, Obj.sph _ => simp [Obj.isTriangle] at htri

theorem boundedBoxes_of_perm {K : Type} [LinearOrderedField K]
    {l₁ l₂ : List (Obj K)} (h : l₁.Perm l₂) (hb : boundedBoxes l₂) :
    boundedBoxes l₁ :=
  fun o ho => hb o (h.mem_iff.mp ho)

theorem boundedBoxes_of_sublist {K : Type} [LinearOrderedField K]
    {l₁ l₂ : List (Obj K)} (h : l₁.Sublist l₂) (hb : boundedBoxes l₂) :
    boundedBoxes l₁ :=
  fun o ho => hb o (h.mem ho)

/-- The build preserves triangles-before-spheres: every level re-sorts by
`sort_key`, whose `2*TMAX` sphere offset keeps all triangles in front for
bounded geometry. -/
theorem bvhBuildAux_triBeforeSph {K : Type} [LinearOrderedField K] :
    ∀ (n : ℕ) (axes : List (Fin 3)) (objs : List (Obj K)) (start used : ℕ),
    objs.length = n → boundedBoxes objs →
    triBeforeSph ((bvhBuildAux axes objs start used).1) := by
  intro n
  induction n using Nat.strong_induction_on with
  | _ n ih =>
    intro axes objs start used hlen hb
    match objs with
    | [] => simp [bvhBuildAux, triBeforeSph]
    | [o] => simp [bvhBuildAux, triBeforeSph]
    | o₁ :: o₂ :: tl =>
      have hS_len : ∀ ax : Fin 3,
          (sortObjects (o₁ :: o₂ :: tl) ax).length = tl.length + 2 := by
        intro ax
        rw [length_sortObjects]
        simp
      set ax := (axes.headD 0) with hax
      set S := sortObjects (o₁ :: o₂ :: tl) ax with hS
      set N := (o₁ :: o₂ :: tl).length with hN
      set M := N / 2 with hM
      have hN2 : N = tl.length + 2 := by simp [hN]
      have htake_len : (S.take M).length = M := by
        rw [List.length_take, hS, hS_len]
        omega
      have hdrop_len : (S.drop M).length = N - M := by
        rw [List.length_drop, hS, hS_len, hN2]
      have hbS : boundedBoxes S :=
        boundedBoxes_of_perm (sortObjects_perm _ _) hb
      have hbT : boundedBoxes (S.take M) :=
        boundedBoxes_of_sublist (List.take_sublist _ _) hbS
      have hbD : boundedBoxes (S.drop M) :=
        boundedBoxes_of_sublist (List.drop_sublist _ _) hbS
      have hTS : triBeforeSph S := sortObjects_triBeforeSph _ _ hb
      have hL := ih M (by omega) axes.tail (S.take M) start (used + 1)
        htake_len hbT
      have hR := ih (N - M) (by omega)
        (bvhBuildAux axes.tail (S.take M) start (used + 1)).2.2
        (S.drop M) (start + M)
        (used + 1 + (bvhBuildAux axes.tail (S.take M) start (used + 1)).2.1.length)
        hdrop_len hbD
      obtain ⟨l1, l2, l3, l4⟩ :=
        bvhBuildAux_spec M axes.tail (S.take M) start (used + 1) htake_len
          (List.ne_nil_of_length_pos (by rw [htake_len]; omega))
      obtain ⟨r1, r2, r3, r4⟩ :=
        bvhBuildAux_spec (N - M)
          (bvhBuildAux axes.tail (S.take M) start (used + 1)).2.2
          (S.drop M) (start + M)
          (used + 1 + (bvhBuildAux axes.tail (S.take M) start (used + 1)).2.1.length)
          hdrop_len
          (List.ne_nil_of_length_pos (by rw [hdrop_len]; omega))
      have hcross : ∀ a ∈ S.take M, ∀ b ∈ S.drop M,
          b.isTriangle = true → a.isTriangle = true := by
        have := hTS
        rw [triBeforeSph, ← List.take_append_drop M S,
          List.pairwise_append] at this
        exact this.2.2
      simp only [bvhBuildAux]
      rw [← hax, ← hS, ← hN, ← hM]
      rw [triBeforeSph, List.pairwise_append]
      refine ⟨hL, hR, ?_⟩
      intro a haL b hbR
      exact hcross a (l2.mem_iff.mp haL) b (r2.mem_iff.mp hbR)

theorem triBeforeSph_decomp {K : Type} [LinearOrderedField K] :
    ∀ (l : List (Obj K)), triBeforeSph l →
    ∃ lt ls : List (Obj K), l = lt ++ ls ∧
      (∀ o ∈ lt, o.isTriangle = true) ∧ (∀ o ∈ ls, o.isTriangle = false) := by
  intro l
  induction l with
  | nil => exact fun _ => ⟨[], [], rfl, by simp, by simp⟩
  | cons o rest ihr =>
    intro h
    rw [triBeforeSph, List.pairwise_cons] at h
    obtain ⟨lt, ls, hsplit, hlt, hls⟩ := ihr h.2
    by_cases ho : o.isTriangle = true
    · refine ⟨o :: lt, ls, by simp [hsplit], ?_, hls⟩
      intro x hx
      rcases List.mem_cons.mp hx with hx | hx
      · rwa [hx]
      · exact hlt x hx
    · refine ⟨[], o :: rest, by simp, by simp, ?_⟩
      intro x hx
      rcases List.mem_cons.mp hx with hx | hx
      · rw [hx]
        exact Bool.eq_false_iff.mpr fun hc => ho hc
      · by_contra hc
        have hx_tri : x.isTriangle = true := by
          revert hc
          cases hxv : x.isTriangle <;> simp
        exact ho (h.1 x hx hx_tri)

theorem filterMap_asTri_of_all_tri {K : Type} :
    ∀ (lt : List (Obj K)), (∀ o ∈ lt, o.isTriangle = true) →
    (lt.filterMap Obj.asTri).length = lt.length ∧
    (∀ i o, lt.get? i = some o →
      ∃ t, o = Obj.tri t ∧ (lt.filterMap Obj.asTri).get? i = some t) := by
  intro lt
  induction lt with
  | nil => exact fun _ => ⟨rfl, by simp⟩
  | cons o rest ihr =>
    intro h
    match o with
    | Obj.tri t =>
      have hrest := ihr fun x hx => h x (List.mem_cons_of_mem _ hx)
      constructor
      · simp [List.filterMap_cons, Obj.asTri, hrest.1]
      · intro i o' hget
        match i with
        | 0 =>
          simp only [List.get?] at hget
          cases hget
          exact ⟨t, rfl, by simp [List.filterMap_cons, Obj.asTri]⟩
        | i + 1 =>
          simp only [List.get?] at hget
          obtain ⟨t', ht', hg⟩ := hrest.2 i o' hget
          exact ⟨t', ht', by simpa [List.filterMap_cons, Obj.asTri] using hg⟩
    | Obj.sph s =>
      exfalso
      have := h (Obj.sph s) (List.mem_cons_self _ _)
      simp [Obj.isTriangle] at this

theorem filterMap_asTri_of_all_sph {K : Type} :
    ∀ (ls : List (Obj K)), (∀ o ∈ ls, o.isTriangle = false) →
    ls.filterMap Obj.asTri = [] := by
  intro ls
  induction ls with
  | nil => exact fun _ => rfl
  | cons o rest ihr =>
    intro h
    match o with
    | Obj.tri t =>
      have := h (Obj.tri t) (List.mem_cons_self _ _)
      simp [Obj.isTriangle] at this
    | Obj.sph s =>
      simp only [List.filterMap_cons, Obj.asSph, Obj.asTri]
      exact ihr fun x hx => h x (List.mem_cons_of_mem _ hx)

theorem filterMap_asSph_of_all_tri {K : Type} :
    ∀ (lt : List (Obj K)), (∀ o ∈ lt, o.isTriangle = true) →
    lt.filterMap Obj.asSph = [] := by
  intro lt
  induction lt with
  | nil => exact fun _ => rfl
  | cons o rest ihr =>
    intro h
    match o with
    | Obj.sph s =>
      have := h (Obj.sph s) (List.mem_cons_self _ _)
      simp [Obj.isTriangle] at this
    | Obj.tri t =>
      simp only [List.filterMap_cons, Obj.asSph, Obj.asTri]
      exact ihr fun x hx => h x (List.mem_cons_of_mem _ hx)

theorem filterMap_asSph_of_all_sph {K : Type} :
    ∀ (ls : List (Obj K)), (∀ o ∈ ls, o.isTriangle = false) →
    (ls.filterMap Obj.asSph).length = ls.length ∧
    (∀ i o, ls.get? i = some o →
      ∃ s, o = Obj.sph s ∧ (ls.filterMap Obj.asSph).get? i = some s) := by
  intro ls
  induction ls with
  | nil => exact fun _ => ⟨rfl, by simp⟩
  | cons o rest ihr =>
    intro h
    match o with
    | Obj.tri t =>
      exfalso
      have := h (Obj.tri t) (List.mem_cons_self _ _)
      simp [Obj.isTriangle] at this
    | Obj.sph s =>
      have hrest := ihr fun x hx => h x (List.mem_cons_of_mem _ hx)
      constructor
      · simp [List.filterMap_cons, Obj.asSph, hrest.1]
      · intro i o' hget
        match i with
        | 0 =>
          simp only [List.get?] at hget
          cases hget
          exact ⟨s, rfl, by simp [List.filterMap_cons, Obj.asSph]⟩
        | i + 1 =>
          simp only [List.get?] at hget
          obtain ⟨s', hs', hg⟩ := hrest.2 i o' hget
          exact ⟨s', hs', by simpa [List.filterMap_cons, Obj.asSph] using hg⟩

/-- Per-index dispatch facts of the made scene: the reordered global list
splits as triangles-then-spheres, a global index is below the triangle
count exactly when it addresses a triangle, and the per-type arrays
return exactly the object at that global index. -/
theorem sceneMake_index_dispatch {K : Type} [LinearOrderedField K]
    (ops : RealOps K) (axes : List (Fin 3)) (objs : List (Obj K))
    (amb : AmbientLight K) (dl : DirecLight K) (hb : boundedBoxes objs) :
    ∀ (i : ℕ) (o : Obj K), (bvhBuild axes objs).1.get? i = some o →
      ((i < (sceneMake ops axes objs amb dl).triangles.length) ↔
        o.isTriangle = true) ∧
      (∀ t, o = Obj.tri t →
        (sceneMake ops axes objs amb dl).triangles.get? i = some t) ∧
      (∀ s, o = Obj.sph s →
        (sceneMake ops axes objs amb dl).spheres.get?
          (i - (sceneMake ops axes objs amb dl).triangles.length) =
          some s) := by
  have htb : triBeforeSph (bvhBuild axes objs).1 :=
    bvhBuildAux_triBeforeSph objs.length axes objs 0 0 rfl hb
  obtain ⟨lt, ls, hsplit, hlt, hls⟩ := triBeforeSph_decomp _ htb
  have htriList : (sceneMake ops axes objs amb dl).triangles =
      lt.filterMap Obj.asTri := by
    show (bvhBuild axes objs).1.filterMap Obj.asTri = _
    rw [hsplit, List.filterMap_append, filterMap_asTri_of_all_sph ls hls,
      List.append_nil]
  have hsphList : (sceneMake ops axes objs amb dl).spheres =
      ls.filterMap Obj.asSph := by
    show (bvhBuild axes objs).1.filterMap Obj.asSph = _
    rw [hsplit, List.filterMap_append, filterMap_asSph_of_all_tri lt hlt,
      List.nil_append]
  have htriLen : (sceneMake ops axes objs amb dl).triangles.length =
      lt.length := by
    rw [htriList, (filterMap_asTri_of_all_tri lt hlt).1]
  intro i o hget
  refine ⟨?_, ?_, ?_⟩
  · rw [htriLen]
    constructor
    · intro hilt
      have : (bvhBuild axes objs).1.get? i = lt.get? i := by
        rw [hsplit]
        exact List.get?_append hilt
      rw [this] at hget
      exact hlt o (List.get?_mem hget)
    · intro htri
      by_contra hge
      push_neg at hge
      have : (bvhBuild axes objs).1.get? i = ls.get? (i - lt.length) := by
        rw [hsplit]
        exact List.get?_append_right hge
      rw [this] at hget
      have := hls o (List.get?_mem hget)
      rw [htri] at this
      simp at this
  · intro t hto
    have hilt : i < lt.length := by
      by_contra hge
      push_neg at hge
      have : (bvhBuild axes objs).1.get? i = ls.get? (i - lt.length) := by
        rw [hsplit]
        exact List.get?_append_right hge
      rw [this] at hget
      have := hls o (List.get?_mem hget)
      rw [hto] at this
      simp [Obj.isTriangle] at this
    have : (bvhBuild axes objs).1.get? i = lt.get? i := by
      rw [hsplit]
      exact List.get?_append hilt
    rw [this] at hget
    obtain ⟨t', ht', hgt⟩ := (filterMap_asTri_of_all_tri lt hlt).2 i o hget
    rw [htriList, hgt]
    rw [hto] at ht'
    cases ht'
    rfl
  · intro s hso
    have hge : lt.length ≤ i := by
      by_contra hlt'
      push_neg at hlt'
      have : (bvhBuild axes objs).1.get? i = lt.get? i := by
        rw [hsplit]
        exact List.get?_append hlt'
      rw [this] at hget
      have := hlt o (List.get?_mem hget)
      rw [hso] at this
      simp [Obj.isTriangle] at this
    have : (bvhBuild axes objs).1.get? i = ls.get? (i - lt.length) := by
      rw [hsplit]
      exact List.get?_append_right hge
    rw [this] at hget
    obtain ⟨s', hs', hgs⟩ :=
      (filterMap_asSph_of_all_sph ls hls).2 (i - lt.length) o hget
    rw [hsphList, htriLen, hgs]
    rw [hso] at hs'
    cases hs'
    rfl

/-- C10: after `Scene.make()` the build-time reordering keeps every
triangle-shaped object before every sphere-shaped object (the sphere sort
key is offset by `2*TMAX` in every sorted sub-range, which wins whenever
the geometry lies strictly inside `(-TMAX, TMAX)`), so a BVH leaf's
`obj_id` is below the triangle count exactly when its primitive is a
triangle, and the index dispatch of `Scene.bvh_intersect` (triangle array
for `obj_id < tri_ptr`, sphere array at `obj_id - tri_ptr` otherwise)
retrieves exactly the primitive the leaf was built over. -/
theorem scene_leaf_dispatch {K : Type} [LinearOrderedField K]
    (ops : RealOps K) (axes : List (Fin 3)) (objs : List (Obj K))
    (amb : AmbientLight K) (dl : DirecLight K)
    (hne : objs ≠ []) (hb : boundedBoxes objs) :
    triBeforeSph (bvhBuild axes objs).1 ∧
    (∀ nd ∈ (sceneMake ops axes objs amb dl).nodes, nd.obj_id ≠ -1 →
      ∃ (i : ℕ) (o : Obj K),
        nd.obj_id = (i : ℤ) ∧
        (bvhBuild axes objs).1.get? i = some o ∧
        nd.aabb = o.bbox ∧
        ((i < (sceneMake ops axes objs amb dl).triangles.length) ↔
          o.isTriangle = true) ∧
        (∀ t, o = Obj.tri t →
          (sceneMake ops axes objs amb dl).triangles.get? i = some t) ∧
        (∀ s, o = Obj.sph s →
          (sceneMake ops axes objs amb dl).spheres.get?
            (i - (sceneMake ops axes objs amb dl).triangles.length) =
            some s)) := by
  refine ⟨bvhBuildAux_triBeforeSph objs.length axes objs 0 0 rfl hb, ?_⟩
  intro nd hnd hleaf
  obtain ⟨i, o, hi, hid, hget, hab⟩ :=
    (bvhBuildAux_tree objs.length axes objs 0 0 rfl hne).1 nd hnd hleaf
  rw [show (bvhBuildAux axes objs 0 0).1 = (bvhBuild axes objs).1 from rfl]
    at hget
  obtain ⟨d1, d2, d3⟩ :=
    sceneMake_index_dispatch ops axes objs amb dl hb i o hget
  exact ⟨i, o, by simpa using hid, hget, hab, d1, d2, d3⟩

/-- C10 witness: the dispatch theorem instantiated on the concrete
two-triangle scene. -/
theorem scene_leaf_dispatch_witness :
    triBeforeSph (bvhBuild [0] [Obj.tri triW1, Obj.tri triW2]).1 ∧
    (∀ nd ∈ (sceneMake (qOps fun _ => 0) [0] [Obj.tri triW1, Obj.tri triW2]
        ⟨⟨0, 0, 0⟩⟩ ⟨⟨0, 0, 0⟩, ⟨0, 0, 0⟩⟩).nodes, nd.obj_id ≠ -1 →
      ∃ (i : ℕ) (o : Obj ℚ),
        nd.obj_id = (i : ℤ) ∧
        (bvhBuild [0] [Obj.tri triW1, Obj.tri triW2]).1.get? i = some o ∧
        nd.aabb = o.bbox ∧
        ((i < (sceneMake (qOps fun _ => 0) [0] [Obj.tri triW1, Obj.tri triW2]
            ⟨⟨0, 0, 0⟩⟩ ⟨⟨0, 0, 0⟩, ⟨0, 0, 0⟩⟩).triangles.length) ↔
          o.isTriangle = true) ∧
        (∀ t, o = Obj.tri t →
          (sceneMake (qOps fun _ => 0) [0] [Obj.tri triW1, Obj.tri triW2]
            ⟨⟨0, 0, 0⟩⟩ ⟨⟨0, 0, 0⟩, ⟨0, 0, 0⟩⟩).triangles.get? i = some t) ∧
        (∀ s, o = Obj.sph s →
          (sceneMake (qOps fun _ => 0) [0] [Obj.tri triW1, Obj.tri triW2]
            ⟨⟨0, 0, 0⟩⟩ ⟨⟨0, 0, 0⟩, ⟨0, 0, 0⟩⟩).spheres.get?
            (i - (sceneMake (qOps fun _ => 0) [0]
              [Obj.tri triW1, Obj.tri triW2] ⟨⟨0, 0, 0⟩⟩
              ⟨⟨0, 0, 0⟩, ⟨0, 0, 0⟩⟩).triangles.length) = some s)) :=
  scene_leaf_dispatch (qOps fun _ => 0) [0] [Obj.tri triW1, Obj.tri triW2]
    ⟨⟨0, 0, 0⟩⟩ ⟨⟨0, 0, 0⟩, ⟨0, 0, 0⟩⟩ (by simp)
    (by
      intro o ho ax
      fin_cases ho <;> fin_cases ax <;>
        norm_num [triW1, triW2, Obj.bbox, Vec3.comp, TMAX])

/-- Membership of a point in an axis box, component-wise. -/
def pointInBox {K : Type} [LinearOrder K] (p : Vec3 K) (b : AABB K) : Prop :=
  b.min.x ≤ p.x ∧ p.x ≤ b.max.x ∧ b.min.y ≤ p.y ∧ p.y ≤ b.max.y ∧
    b.min.z ≤ p.z ∧ p.z ≤ b.max.z

/-- Box inclusion, component-wise. -/
def boxLe {K : Type} [LinearOrder K] (inner outer : AABB K) : Prop :=
  outer.min.x ≤ inner.min.x ∧ inner.max.x ≤ outer.max.x ∧
  outer.min.y ≤ inner.min.y ∧ inner.max.y ≤ outer.max.y ∧
  outer.min.z ≤ inner.min.z ∧ inner.max.z ≤ outer.max.z

theorem pointInBox_mono {K : Type} [LinearOrder K] {p : Vec3 K}
    {inner outer : AABB K} (hb : boxLe inner outer)
    (hp : pointInBox p inner) : pointInBox p outer := by
  obtain ⟨a1, a2, a3, a4, a5, a6⟩ := hb
  obtain ⟨b1, b2, b3, b4, b5, b6⟩ := hp
  exact ⟨le_trans a1 b1, le_trans b2 a2, le_trans a3 b3, le_trans b4 a4,
    le_trans a5 b5, le_trans b6 a6⟩

theorem boxLe_union_left {K : Type} [LinearOrder K] (a b : AABB K) :
    boxLe a (a.union b) := by
  simp [boxLe, AABB.union, Vec3.cmin, Vec3.cmax, min_le_left, le_max_left]

theorem boxLe_union_right {K : Type} [LinearOrder K] (a b : AABB K) :
    boxLe b (a.union b) := by
  simp [boxLe, AABB.union, Vec3.cmin, Vec3.cmax, min_le_right, le_max_right]

theorem boxLe_trans {K : Type} [LinearOrder K] {a b c : AABB K}
    (h1 : boxLe a b) (h2 : boxLe b c) : boxLe a c := by
  obtain ⟨a1, a2, a3, a4, a5, a6⟩ := h1
  obtain ⟨b1, b2, b3, b4, b5, b6⟩ := h2
  exact ⟨le_trans b1 a1, le_trans a2 b2, le_trans b3 a3, le_trans a4 b4,
    le_trans b5 a5, le_trans a6 b6⟩

/-- A parameter whose ray point lies between the two slab planes of an
axis lies between the two slab times (whatever the sign of the direction
component). -/
theorem slab_between {K : Type} [LinearOrderedField K]
    {mn mx o d t : K} (hd : d ≠ 0)
    (h1 : mn ≤ o + t * d) (h2 : o + t * d ≤ mx) :
    Min.min ((mn - o) * (1 / d)) ((mx - o) * (1 / d)) ≤ t ∧
    t ≤ Max.max ((mn - o) * (1 / d)) ((mx - o) * (1 / d)) := by
  rcases lt_or_gt_of_ne hd with hneg | hpos
  · constructor
    · refine le_trans (min_le_right _ _) ?_
      rw [mul_one_div, div_le_iff_of_neg hneg]
      nlinarith
    · refine le_trans ?_ (le_max_left _ _)
      rw [mul_one_div, le_div_iff_of_neg hneg]
      nlinarith
  · constructor
    · refine le_trans (min_le_left _ _) ?_
      rw [mul_one_div, div_le_iff hpos]
      nlinarith
    · refine le_trans ?_ (le_max_right _ _)
      rw [mul_one_div, le_div_iff hpos]
      nlinarith

/-- One slab step keeps a parameter that is inside this axis's slab and
inside the running interval. -/
theorem slabStep_keeps {K : Type} [LinearOrderedField K]
    (a : AABB K) (ray : Ray K) (i : Fin 3) (s : Bool × K × K) (t : K)
    (hd : ray.dir.comp i ≠ 0)
    (hflag : s.1 = true) (hlo : s.2.1 ≤ t) (hhi : t ≤ s.2.2)
    (hmin : a.min.comp i ≤ ray.origin.comp i + t * ray.dir.comp i)
    (hmax : ray.origin.comp i + t * ray.dir.comp i ≤ a.max.comp i) :
    (a.slabStep ray i s).1 = true ∧ (a.slabStep ray i s).2.1 ≤ t ∧
      t ≤ (a.slabStep ray i s).2.2 := by
  obtain ⟨hbelow, habove⟩ := slab_between hd hmin hmax
  unfold AABB.slabStep
  dsimp only
  rcases lt_or_ge ((a.min.comp i - ray.origin.comp i) * (1 / ray.dir.comp i))
    ((a.max.comp i - ray.origin.comp i) * (1 / ray.dir.comp i)) with hc | hc
  · rw [if_pos hc, if_pos hc]
    rw [min_eq_left hc.le] at hbelow
    rw [max_eq_right hc.le] at habove
    refine ⟨?_, max_le hbelow hlo, le_min habove hhi⟩
    rw [hflag, Bool.true_and, decide_eq_true_eq]
    exact le_trans (max_le hbelow hlo) (le_min habove hhi)
  · rw [if_neg (not_lt.mpr hc), if_neg (not_lt.mpr hc)]
    rw [min_eq_right hc] at hbelow
    rw [max_eq_left hc] at habove
    refine ⟨?_, max_le hbelow hlo, le_min habove hhi⟩
    rw [hflag, Bool.true_and, decide_eq_true_eq]
    exact le_trans (max_le hbelow hlo) (le_min habove hhi)

/-- The slab test accepts any parameter whose ray point lies in the box
and which lies inside the query interval, and its reported entry time is a
lower bound for every such parameter (direction components nonzero). -/
theorem aabb_intersect_of_point {K : Type} [LinearOrderedField K]
    (a : AABB K) (ray : Ray K) (tmin tmax t : K)
    (hdx : ray.dir.x ≠ 0) (hdy : ray.dir.y ≠ 0) (hdz : ray.dir.z ≠ 0)
    (hp : pointInBox (ray.at t) a) (h1 : tmin ≤ t) (h2 : t ≤ tmax) :
    (a.intersect ray tmin tmax).is_hit = true ∧
      (a.intersect ray tmin tmax).tmin ≤ t := by
  obtain ⟨p1, p2, p3, p4, p5, p6⟩ := hp
  simp only [Ray.at, Vec3.add_x, Vec3.add_y, Vec3.add_z, Vec3.smul_x,
    Vec3.smul_y, Vec3.smul_z] at p1 p2 p3 p4 p5 p6
  have c0 : ∀ v : Vec3 K, v.comp 0 = v.x := fun _ => rfl
  have c1 : ∀ v : Vec3 K, v.comp 1 = v.y := fun _ => rfl
  have c2 : ∀ v : Vec3 K, v.comp 2 = v.z := fun _ => rfl
  have s0 := slabStep_keeps a ray 0 (true, tmin, tmax) t
    (by rw [c0]; exact hdx) rfl h1 h2
    (by rw [c0, c0, c0]; linarith [mul_comm t ray.dir.x])
    (by rw [c0, c0, c0]; linarith [mul_comm t ray.dir.x])
  have s1 := slabStep_keeps a ray 1 (a.slabStep ray 0 (true, tmin, tmax)) t
    (by rw [c1]; exact hdy) s0.1 s0.2.1 s0.2.2
    (by rw [c1, c1, c1]; linarith [mul_comm t ray.dir.y])
    (by rw [c1, c1, c1]; linarith [mul_comm t ray.dir.y])
  have s2 := slabStep_keeps a ray 2
    (a.slabStep ray 1 (a.slabStep ray 0 (true, tmin, tmax))) t
    (by rw [c2]; exact hdz) s1.1 s1.2.1 s1.2.2
    (by rw [c2, c2, c2]; linarith [mul_comm t ray.dir.z])
    (by rw [c2, c2, c2]; linarith [mul_comm t ray.dir.z])
  exact ⟨s2.1, s2.2.1⟩

/-- The bounds-independent hit candidate of `Triangle.intersect`
(Möller-Trumbore solution, present iff the divisor is nonzero and the
barycentric tests pass). -/
def Triangle.candTime {K : Type} [LinearOrderedField K]
    (self : Triangle K) (ray : Ray K) : Option K :=
  let edge1 := self.v1 - self.v0
  let edge2 := self.v2 - self.v0
  let oc := ray.origin - self.v0
  let s1 := ray.dir.cross edge2
  let s2 := oc.cross edge1
  let divisor := s1.dot edge1
  if divisor = 0 then none
  else
    let t := s2.dot edge2 / divisor
    let b1 := s1.dot oc / divisor
    let b2 := s2.dot ray.dir / divisor
    if 0 ≤ b1 ∧ 0 ≤ b2 ∧ b1 + b2 ≤ 1 then some t else none

/-- The hit record `Triangle.intersect` returns at parameter `t`. -/
def Triangle.hitRec {K : Type} [LinearOrderedField K] (ops : RealOps K)
    (self : Triangle K) (ray : Ray K) (t : K) : HitInfo K :=
  let edge1 := self.v1 - self.v0
  let edge2 := self.v2 - self.v0
  let n0 := (edge1.cross edge2).normalized ops
  ⟨true, t, ray.at t, if 0 < ray.dir.dot n0 then -n0 else n0,
    decide (0 < ray.dir.dot n0), self.tag, 0, 0, self.pbr.albedo,
    self.pbr.metallic, self.pbr.roughness, self.pbr.emission, 0⟩

/-- The miss record of `Triangle.intersect`. -/
def Triangle.missRec {K : Type} [LinearOrderedField K]
    (self : Triangle K) : HitInfo K :=
  ⟨false, TMAX K, Vec3.zero K, Vec3.zero K, false, self.tag, 0, 0,
    self.pbr.albedo, self.pbr.metallic, self.pbr.roughness,
    self.pbr.emission, 0⟩

theorem triangle_intersect_char {K : Type} [LinearOrderedField K]
    (ops : RealOps K) (self : Triangle K) (ray : Ray K) (tmin tmax : K) :
    self.intersect ops ray tmin tmax =
      (match self.candTime ray with
       | some t =>
         if tmin < t ∧ t < tmax then self.hitRec ops ray t else self.missRec
       | none => self.missRec) := by
  unfold Triangle.intersect Triangle.candTime Triangle.hitRec Triangle.missRec
  dsimp only
  set D := (ray.dir.cross (self.v2 - self.v0)).dot (self.v1 - self.v0) with hD
  set T := ((ray.origin - self.v0).cross (self.v1 - self.v0)).dot
    (self.v2 - self.v0) / D with hT
  set B1 := (ray.dir.cross (self.v2 - self.v0)).dot
    (ray.origin - self.v0) / D with hB1
  set B2 := ((ray.origin - self.v0).cross (self.v1 - self.v0)).dot
    ray.dir / D with hB2
  by_cases hdiv : D = 0
  · simp only [if_pos hdiv]
  · simp only [if_neg hdiv]
    by_cases hb : 0 ≤ B1 ∧ 0 ≤ B2 ∧ B1 + B2 ≤ 1
    · by_cases ht : tmin < T ∧ T < tmax
      · rw [if_pos ⟨hb.1, hb.2.1, hb.2.2, ht.1, ht.2⟩, if_pos hb]
        simp only [if_pos ht]
      · rw [if_neg fun hc => ht ⟨hc.2.2.2.1, hc.2.2.2.2⟩, if_pos hb]
        simp only [if_neg ht]
    · rw [if_neg fun hc => hb ⟨hc.1, hc.2.1, hc.2.2.1⟩, if_neg hb]

/-- The bounds-independent hit candidate of `Sphere.intersect` (the
epsilon-perturbed near root, present iff the discriminant is positive). -/
def Sphere.candTime {K : Type} [LinearOrderedField K] (ops : RealOps K)
    (self : Sphere K) (ray : Ray K) : Option K :=
  let oc := ray.origin - self.center
  let a := ray.dir.dot ray.dir
  let b := 2 * oc.dot ray.dir
  let c := oc.dot oc - self.radius ^ 2
  let disc := b ^ 2 - 4 * a * c
  if 0 < disc then some ((-b - ops.sqrt disc) / (2 * a + EPSILON K))
  else none

/-- The hit record `Sphere.intersect` returns at parameter `t`. -/
def Sphere.hitRec {K : Type} [LinearOrderedField K] (ops : RealOps K)
    (self : Sphere K) (ray : Ray K) (t : K) : HitInfo K :=
  let hit_pos := ray.at t
  let n0 := (hit_pos - self.center).normalized ops
  ⟨true, t, hit_pos, if 0 < ray.dir.dot n0 then -n0 else n0,
    decide (0 < ray.dir.dot n0), self.tag,
    1 / 2 + ops.atan2 n0.z n0.x / (2 * ops.pi),
    1 / 2 - ops.asin n0.y / ops.pi,
    self.pbr.albedo, self.pbr.metallic, self.pbr.roughness,
    self.pbr.emission, 0⟩

/-- The miss record of `Sphere.intersect`. -/
def Sphere.missRec {K : Type} [LinearOrderedField K]
    (self : Sphere K) : HitInfo K :=
  ⟨false, TMAX K, Vec3.zero K, Vec3.zero K, false, self.tag, 0, 0,
    self.pbr.albedo, self.pbr.metallic, self.pbr.roughness,
    self.pbr.emission, 0⟩

theorem sphere_intersect_char {K : Type} [LinearOrderedField K]
    (ops : RealOps K) (self : Sphere K) (ray : Ray K) (tmin tmax : K) :
    self.intersect ops ray tmin tmax =
      (match self.candTime ops ray with
       | some t =>
         if tmin < t ∧ t < tmax then self.hitRec ops ray t else self.missRec
       | none => self.missRec) := by
  unfold Sphere.intersect Sphere.candTime Sphere.hitRec Sphere.missRec
  dsimp only
  by_cases hdisc : 0 < (2 * (ray.origin - self.center).dot ray.dir) ^ 2 -
      4 * (ray.dir.dot ray.dir) *
        ((ray.origin - self.center).dot (ray.origin - self.center) -
          self.radius ^ 2)
  · simp only [if_pos hdisc]
  · simp only [if_neg hdisc]

/-- The bounds-independent candidate of either primitive. -/
def Obj.candTime {K : Type} [LinearOrderedField K] (ops : RealOps K)
    (o : Obj K) (ray : Ray K) : Option K :=
  match o with
  | .tri t => t.candTime ray
  | .sph s => s.candTime ops ray

/-- The hit record of either primitive. -/
def Obj.hitRec {K : Type} [LinearOrderedField K] (ops : RealOps K)
    (o : Obj K) (ray : Ray K) (t : K) : HitInfo K :=
  match o with
  | .tri tr => tr.hitRec ops ray t
  | .sph s => s.hitRec ops ray t

/-- The miss record of either primitive. -/
def Obj.missRec {K : Type} [LinearOrderedField K] (o : Obj K) : HitInfo K :=
  match o with
  | .tri tr => tr.missRec
  | .sph s => s.missRec

theorem obj_intersect_char {K : Type} [LinearOrderedField K]
    (ops : RealOps K) (o : Obj K) (ray : Ray K) (tmin tmax : K) :
    o.intersect ops ray tmin tmax =
      (match o.candTime ops ray with
       | some t =>
         if tmin < t ∧ t < tmax then o.hitRec ops ray t else o.missRec
       | none => o.missRec) := by
  match o with
  | .tri tr => exact triangle_intersect_char ops tr ray tmin tmax
  | .sph s => exact sphere_intersect_char ops s ray tmin tmax

theorem obj_hitRec_is_hit {K : Type} [LinearOrderedField K]
    (ops : RealOps K) (o : Obj K) (ray : Ray K) (t : K) :
    (o.hitRec ops ray t).is_hit = true ∧ (o.hitRec ops ray t).time = t := by
  match o with
  | .tri tr => exact ⟨rfl, rfl⟩
  | .sph s => exact ⟨rfl, rfl⟩

theorem obj_missRec_is_hit {K : Type} [LinearOrderedField K] (o : Obj K) :
    (o.missRec).is_hit = false := by
  match o with
  | .tri tr => exact rfl
  | .sph s => exact rfl

theorem boxLe_refl {K : Type} [LinearOrder K] (a : AABB K) : boxLe a a :=
  ⟨le_refl _, le_refl _, le_refl _, le_refl _, le_refl _, le_refl _⟩

theorem isSubtree_lo_lt_hi {K : Type} [LinearOrderedField K]
    {nodes : List (BVHNode K)} {objsG : List (Obj K)} {id lo hi : ℕ}
    {ab : AABB K} (h : IsSubtree nodes objsG id lo hi ab) : lo < hi := by
  induction h with
  | leaf => omega
  | node _ _ _ _ _ _ _ _ hlm hmh => omega

theorem isSubtree_contains {K : Type} [LinearOrderedField K]
    {nodes : List (BVHNode K)} {objsG : List (Obj K)} {id lo hi : ℕ}
    {ab : AABB K} (h : IsSubtree nodes objsG id lo hi ab) :
    ∀ (i : ℕ) (o : Obj K), lo ≤ i → i < hi → objsG.get? i = some o →
      boxLe o.bbox ab := by
  induction h with
  | leaf id lo o hobj hnode =>
    intro i o' h1 h2 hget
    have hi : i = lo := by omega
    subst hi
    rw [hobj] at hget
    cases hget
    exact boxLe_refl _
  | node id lo mid hi lid rid aL aR hlm hmh hnode hL hR ihl ihr =>
    intro i o' h1 h2 hget
    by_cases hc : i < mid
    · exact boxLe_trans (ihl i o' h1 hc hget) (boxLe_union_left _ _)
    · exact boxLe_trans (ihr i o' (by omega) h2 hget) (boxLe_union_right _ _)

/-- The slice `[lo, hi)` of the global object list. -/
def objsRange {K : Type} (objsG : List (Obj K)) (lo hi : ℕ) : List (Obj K) :=
  (objsG.drop lo).take (hi - lo)

theorem objsRange_singleton {K : Type} {objsG : List (Obj K)} {lo : ℕ}
    {o : Obj K} (h : objsG.get? lo = some o) :
    objsRange objsG lo (lo + 1) = [o] := by
  unfold objsRange
  have h1 : lo + 1 - lo = 1 := by omega
  rw [h1]
  have hd : (objsG.drop lo).get? 0 = some o := by
    rw [List.get?_drop]
    simpa using h
  match hm : objsG.drop lo with
  | [] => rw [hm] at hd; simp at hd
  | x :: xs =>
    rw [hm] at hd
    simp only [List.get?] at hd
    cases hd
    simp

theorem objsRange_split {K : Type} (objsG : List (Obj K)) {lo mid hi : ℕ}
    (h1 : lo ≤ mid) (h2 : mid ≤ hi) :
    objsRange objsG lo hi = objsRange objsG lo mid ++ objsRange objsG mid hi := by
  unfold objsRange
  have h3 : hi - lo = (mid - lo) + (hi - mid) := by omega
  rw [h3, List.take_add, List.drop_drop]
  have h4 : lo + (mid - lo) = mid := by omega
  rw [h4]

theorem objsRange_mem {K : Type} {objsG : List (Obj K)} {lo hi : ℕ}
    {o : Obj K} (h : o ∈ objsRange objsG lo hi) :
    ∃ i, lo ≤ i ∧ i < hi ∧ objsG.get? i = some o := by
  unfold objsRange at h
  obtain ⟨j, hj⟩ := List.mem_iff_get?.mp h
  have hjlt : j < hi - lo := by
    by_contra hge
    push_neg at hge
    rw [List.get?_eq_none.mpr] at hj
    · exact Option.noConfusion hj
    · calc ((objsG.drop lo).take (hi - lo)).length ≤ hi - lo :=
          le_trans (List.length_take _ _).le (min_le_left _ _)
        _ ≤ j := hge
  rw [List.get?_take hjlt, List.get?_drop] at hj
  exact ⟨lo + j, by omega, by omega, hj⟩

theorem primFold_eq_of_no_cand {K : Type} [LinearOrderedField K]
    (ops : RealOps K) (ray : Ray K) (tmin : K) (best : HitInfo K) (o : Obj K)
    (h : ∀ t, o.candTime ops ray = some t → ¬(tmin < t ∧ t < best.time)) :
    primFold ops ray tmin best o = best := by
  unfold primFold
  rw [obj_intersect_char]
  match hc : o.candTime ops ray with
  | none =>
    dsimp only
    rw [if_neg]
    intro hcon
    rw [obj_missRec_is_hit] at hcon
    exact Bool.false_ne_true hcon.1
  | some t =>
    dsimp only
    rw [if_neg (h t hc), if_neg]
    intro hcon
    rw [obj_missRec_is_hit] at hcon
    exact Bool.false_ne_true hcon.1

theorem foldl_primFold_const {K : Type} [LinearOrderedField K]
    (ops : RealOps K) (ray : Ray K) (tmin : K) :
    ∀ (L : List (Obj K)) (best : HitInfo K),
    (∀ o ∈ L, primFold ops ray tmin best o = best) →
    L.foldl (primFold ops ray tmin) best = best := by
  intro L
  induction L with
  | nil => intro best _; rfl
  | cons o rest ihr =>
    intro best h
    rw [List.foldl_cons, h o (List.mem_cons_self _ _)]
    exact ihr best fun x hx => h x (List.mem_cons_of_mem _ hx)

/-- A pruned box admits no improving candidate inside it. -/
theorem no_improve_of_prune {K : Type} [LinearOrderedField K]
    (ops : RealOps K) (ray : Ray K) (tmin : K) (best : HitInfo K)
    (o : Obj K) (ab : AABB K)
    (hdx : ray.dir.x ≠ 0) (hdy : ray.dir.y ≠ 0) (hdz : ray.dir.z ≠ 0)
    (hcb : ∀ t, o.candTime ops ray = some t → pointInBox (ray.at t) o.bbox)
    (hbox : boxLe o.bbox ab)
    (hprune : ¬(ab.intersect ray tmin best.time).is_hit = true ∨
      best.time ≤ (ab.intersect ray tmin best.time).tmin) :
    primFold ops ray tmin best o = best := by
  refine primFold_eq_of_no_cand ops ray tmin best o ?_
  rintro t hc ⟨h1, h2⟩
  have hp := pointInBox_mono hbox (hcb t hc)
  have hh := aabb_intersect_of_point ab ray tmin best.time t hdx hdy hdz hp
    h1.le h2.le
  rcases hprune with hpr | hpr
  · exact hpr hh.1
  · exact absurd (lt_of_le_of_lt (le_trans hpr hh.2) h2) (lt_irrefl _)

/-- A stack entry's contract: a node id covering an object range. -/
structure RangeSpec (K : Type) where
  lo : ℕ
  hi : ℕ
  ab : AABB K

/-- The explicit-stack traversal of `Scene.bvh_intersect` computes exactly
the left fold of the per-primitive update over the concatenation of the
object ranges covered by the stacked subtrees: box pruning only ever skips
primitives whose candidate hits could not improve the current best
(given that every candidate hit point lies in its primitive's stored
box). -/
theorem traverse_foldl {K : Type} [LinearOrderedField K]
    (ops : RealOps K) (sc : SceneData K) (ray : Ray K) (tmin : K)
    (objsG : List (Obj K))
    (hdx : ray.dir.x ≠ 0) (hdy : ray.dir.y ≠ 0) (hdz : ray.dir.z ≠ 0)
    (DP : ∀ (i : ℕ) (o : Obj K), objsG.get? i = some o →
      ((i < sc.triangles.length) ↔ o.isTriangle = true) ∧
      (∀ t, o = Obj.tri t → sc.triangles.get? i = some t) ∧
      (∀ s, o = Obj.sph s →
        sc.spheres.get? (i - sc.triangles.length) = some s))
    (CB : ∀ (i : ℕ) (o : Obj K) (t : K), objsG.get? i = some o →
      o.candTime ops ray = some t → pointInBox (ray.at t) o.bbox) :
    ∀ (fuel : ℕ) (stack : List ℤ) (specs : List (RangeSpec K))
      (best tmp : HitInfo K),
      List.Forall₂ (fun id sp => ∃ idn : ℕ, id = (idn : ℤ) ∧
        IsSubtree sc.nodes objsG idn sp.lo sp.hi sp.ab) stack specs →
      (specs.map fun sp => 2 * (sp.hi - sp.lo) - 1).sum ≤ fuel →
      sc.traverse ops ray tmin fuel stack best tmp =
        ((specs.map fun sp => objsRange objsG sp.lo sp.hi).flatten).foldl
          (primFold ops ray tmin) best := by
  intro fuel
  induction fuel using Nat.strong_induction_on with
  | _ fuel ihf =>
    intro stack specs best tmp hF hfuel
    match fuel, stack, specs, hF with
    | 0, [], [], _ => rfl
    | fuel + 1, [], [], _ => rfl
    | 0, id :: rest, sp :: srest, hF =>
      exfalso
      obtain ⟨hhead, htail⟩ := List.forall₂_cons.mp hF
      obtain ⟨idn, hid, hsub⟩ := hhead
      have := isSubtree_lo_lt_hi hsub
      simp only [List.map_cons, List.sum_cons, Nat.le_zero] at hfuel
      omega
    | fuel + 1, id :: rest, sp :: srest, hF =>
      obtain ⟨hhead, htail⟩ := List.forall₂_cons.mp hF
      obtain ⟨idn, hid, hsub⟩ := hhead
      subst hid
      obtain ⟨lo, hi, ab⟩ := sp
      simp only at hsub
      have hfuel' : (srest.map fun sp => 2 * (sp.hi - sp.lo) - 1).sum ≤ fuel := by
        simp only [List.map_cons, List.sum_cons] at hfuel
        have := isSubtree_lo_lt_hi hsub
        omega
      simp only [SceneData.traverse]
      rw [if_neg (by omega)]
      rw [show ((idn : ℤ)).toNat = idn from Int.toNat_natCast idn]
      cases hsub with
      | leaf _ _ o hobj hnode =>
        rw [hnode]
        dsimp only
        simp only [List.map_cons, List.flatten_cons]
        rw [objsRange_singleton hobj]
        by_cases hpr : ¬(o.bbox.intersect ray tmin best.time).is_hit = true ∨
            best.time ≤ (o.bbox.intersect ray tmin best.time).tmin
        · rw [if_pos hpr]
          rw [ihf fuel (by omega) rest srest best tmp htail hfuel']
          have hno : primFold ops ray tmin best o = best :=
            no_improve_of_prune ops ray tmin best o o.bbox hdx hdy hdz
              (fun t hc => CB lo o t hobj hc) (boxLe_refl _) hpr
          simp only [List.cons_append, List.nil_append, List.foldl_cons, hno]
        · rw [if_neg hpr]
          rw [if_pos (show ((lo : ℤ)) ≠ -1 by omega)]
          have htmp : (if (lo : ℤ) < (sc.triangles.length : ℤ) then
                match sc.triangles.get? ((lo : ℤ)).toNat with
                | some t => t.intersect ops ray tmin best.time
                | none => tmp
              else if (lo : ℤ) <
                  (sc.triangles.length : ℤ) + (sc.spheres.length : ℤ) then
                match sc.spheres.get?
                    ((lo : ℤ) - (sc.triangles.length : ℤ)).toNat with
                | some s => s.intersect ops ray tmin best.time
                | none => tmp
              else tmp) = o.intersect ops ray tmin best.time := by
            obtain ⟨d1, d2, d3⟩ := DP lo o hobj
            match o with
            | Obj.tri tr =>
              have hlt : lo < sc.triangles.length := d1.mpr rfl
              rw [if_pos (by exact_mod_cast hlt)]
              rw [Int.toNat_natCast, d2 tr rfl]
              rfl
            | Obj.sph s =>
              have hge : ¬lo < sc.triangles.length := by
                simp only [Obj.isTriangle] at d1
                intro hc
                exact Bool.false_ne_true (d1.mp hc)
              have hs := d3 s rfl
              have hslt : lo - sc.triangles.length < sc.spheres.length := by
                obtain ⟨hb, _⟩ := List.get?_eq_some.mp hs
                exact hb
              rw [if_neg (by exact_mod_cast hge)]
              rw [if_pos (by push_cast; omega)]
              rw [show ((lo : ℤ) - (sc.triangles.length : ℤ)).toNat =
                lo - sc.triangles.length from Int.toNat_sub lo _]
              rw [hs]
              rfl
          rw [htmp]
          rw [ihf fuel (by omega) rest srest
            (if (o.intersect ops ray tmin best.time).is_hit = true ∧
                (o.intersect ops ray tmin best.time).time < best.time then
              o.intersect ops ray tmin best.time else best)
            (o.intersect ops ray tmin best.time) htail hfuel']
          simp only [List.cons_append, List.nil_append, List.foldl_cons]
          rfl
      | node _ _ mid _ lid rid aL aR hlm hmh hnode hL hR =>
        rw [hnode]
        dsimp only
        by_cases hpr :
            ¬((aL.union aR).intersect ray tmin best.time).is_hit = true ∨
            best.time ≤ ((aL.union aR).intersect ray tmin best.time).tmin
        · rw [if_pos hpr]
          rw [ihf fuel (by omega) rest srest best tmp htail hfuel']
          simp only [List.map_cons, List.flatten_cons, List.foldl_append]
          have hconst : (objsRange objsG lo hi).foldl
              (primFold ops ray tmin) best = best := by
            refine foldl_primFold_const ops ray tmin _ best ?_
            intro o ho
            obtain ⟨i, hi1, hi2, hget⟩ := objsRange_mem ho
            have hbox : boxLe o.bbox (aL.union aR) :=
              isSubtree_contains (IsSubtree.node idn lo mid hi lid rid aL aR
                hlm hmh hnode hL hR) i o hi1 hi2 hget
            exact no_improve_of_prune ops ray tmin best o (aL.union aR)
              hdx hdy hdz (fun t hc => CB i o t hget hc) hbox hpr
          rw [hconst]
        · rw [if_neg hpr]
          rw [if_neg (by simp)]
          rw [if_pos (show ((lid : ℤ)) ≠ -1 by omega),
            if_pos (show ((rid : ℤ)) ≠ -1 by omega)]
          have hF' : List.Forall₂ (fun id sp => ∃ idn : ℕ, id = (idn : ℤ) ∧
              IsSubtree sc.nodes objsG idn sp.lo sp.hi sp.ab)
              ((lid : ℤ) :: (rid : ℤ) :: rest)
              (⟨lo, mid, aL⟩ :: ⟨mid, hi, aR⟩ :: srest) := by
            refine List.forall₂_cons.mpr ⟨⟨lid, rfl, hL⟩, ?_⟩
            exact List.forall₂_cons.mpr ⟨⟨rid, rfl, hR⟩, htail⟩
          have hsum : ((⟨lo, mid, aL⟩ :: ⟨mid, hi, aR⟩ :: srest :
              List (RangeSpec K)).map fun sp =>
              2 * (sp.hi - sp.lo) - 1).sum ≤ fuel := by
            simp only [List.map_cons, List.sum_cons] at hfuel ⊢
            omega
          simp only [List.cons_append, List.nil_append, List.singleton_append]
          rw [ihf fuel (by omega) ((lid : ℤ) :: (rid : ℤ) :: rest)
            (⟨lo, mid, aL⟩ :: ⟨mid, hi, aR⟩ :: srest) best tmp hF' hsum]
          simp only [List.map_cons, List.flatten_cons]
          rw [objsRange_split objsG hlm.le hmh.le, List.append_assoc]

theorem foldl_tri_extract {K : Type} [LinearOrderedField K]
    (ops : RealOps K) (ray : Ray K) (tmin : K) :
    ∀ (lt : List (Obj K)), (∀ o ∈ lt, o.isTriangle = true) →
    ∀ (best : HitInfo K),
    (lt.filterMap Obj.asTri).foldl
      (fun best t =>
        let tmp := t.intersect ops ray tmin best.time
        if tmp.is_hit ∧ tmp.time < best.time then tmp else best) best =
      lt.foldl (primFold ops ray tmin) best := by
  intro lt
  induction lt with
  | nil => intro _ best; rfl
  | cons o rest ihr =>
    intro h best
    match o with
    | Obj.tri tr =>
      simp only [List.filterMap_cons, Obj.asTri, List.foldl_cons]
      exact ihr (fun x hx => h x (List.mem_cons_of_mem _ hx)) _
    | Obj.sph s =>
      exfalso
      have := h (Obj.sph s) (List.mem_cons_self _ _)
      simp [Obj.isTriangle] at this

theorem foldl_sph_extract {K : Type} [LinearOrderedField K]
    (ops : RealOps K) (ray : Ray K) (tmin : K) :
    ∀ (ls : List (Obj K)), (∀ o ∈ ls, o.isTriangle = false) →
    ∀ (best : HitInfo K),
    (ls.filterMap Obj.asSph).foldl
      (fun best s =>
        let tmp := s.intersect ops ray tmin best.time
        if tmp.is_hit ∧ tmp.time < best.time then tmp else best) best =
      ls.foldl (primFold ops ray tmin) best := by
  intro ls
  induction ls with
  | nil => intro _ best; rfl
  | cons o rest ihr =>
    intro h best
    match o with
    | Obj.sph s =>
      simp only [List.filterMap_cons, Obj.asSph, List.foldl_cons]
      exact ihr (fun x hx => h x (List.mem_cons_of_mem _ hx)) _
    | Obj.tri tr =>
      exfalso
      have := h (Obj.tri tr) (List.mem_cons_self _ _)
      simp [Obj.isTriangle] at this

/-- `Scene.bruteforce_intersect` on a made scene is the left fold of the
per-primitive update over the reordered global object list. -/
theorem bruteforce_eq_foldl {K : Type} [LinearOrderedField K]
    (ops : RealOps K) (axes : List (Fin 3)) (objs : List (Obj K))
    (amb : AmbientLight K) (dl : DirecLight K) (ray : Ray K) (tmin tmax : K)
    (hb : boundedBoxes objs) :
    (sceneMake ops axes objs amb dl).bruteforce_intersect ops ray tmin tmax =
      ((bvhBuild axes objs).1).foldl (primFold ops ray tmin)
        (HitInfo.atTime tmax) := by
  have htb : triBeforeSph (bvhBuild axes objs).1 :=
    bvhBuildAux_triBeforeSph objs.length axes objs 0 0 rfl hb
  obtain ⟨lt, ls, hsplit, hlt, hls⟩ := triBeforeSph_decomp _ htb
  have htriList : (sceneMake ops axes objs amb dl).triangles =
      lt.filterMap Obj.asTri := by
    show (bvhBuild axes objs).1.filterMap Obj.asTri = _
    rw [hsplit, List.filterMap_append, filterMap_asTri_of_all_sph ls hls,
      List.append_nil]
  have hsphList : (sceneMake ops axes objs amb dl).spheres =
      ls.filterMap Obj.asSph := by
    show (bvhBuild axes objs).1.filterMap Obj.asSph = _
    rw [hsplit, List.filterMap_append, filterMap_asSph_of_all_tri lt hlt,
      List.nil_append]
  unfold SceneData.bruteforce_intersect
  rw [htriList, hsphList, hsplit, List.foldl_append]
  rw [foldl_tri_extract ops ray tmin lt hlt]
  rw [foldl_sph_extract ops ray tmin ls hls]

/-- C1 (amended): whenever every primitive's bounds-independent candidate
hit point lies inside that primitive's stored bounding box (triangles
always satisfy this; a sphere's epsilon-perturbed near root can land just
outside its box), and the ray has no zero direction component, the BVH
traversal of a made scene returns exactly the brute-force result — the
same full `HitInfo`, hence the same hit primitive and distance, and
agreement on misses. -/
theorem bvh_intersect_eq_bruteforce {K : Type} [LinearOrderedField K]
    (ops : RealOps K) (axes : List (Fin 3)) (objs : List (Obj K))
    (amb : AmbientLight K) (dl : DirecLight K) (ray : Ray K) (tmin tmax : K)
    (hne : objs ≠ []) (hb : boundedBoxes objs)
    (hdx : ray.dir.x ≠ 0) (hdy : ray.dir.y ≠ 0) (hdz : ray.dir.z ≠ 0)
    (CB : ∀ o ∈ objs, ∀ t, o.candTime ops ray = some t →
      pointInBox (ray.at t) o.bbox) :
    (sceneMake ops axes objs amb dl).bvh_intersect ops ray tmin tmax =
      (sceneMake ops axes objs amb dl).bruteforce_intersect ops ray tmin
        tmax := by
  obtain ⟨l1, l2, l3, l4⟩ := bvhBuildAux_spec objs.length axes objs 0 0 rfl hne
  have hroot := (bvhBuildAux_tree objs.length axes objs 0 0 rfl hne).2
    [] [] (bvhBuildAux axes objs 0 0).1 rfl
    (fun i _ => by rw [Nat.zero_add])
  rw [List.nil_append, List.append_nil] at hroot
  have hCB : ∀ (i : ℕ) (o : Obj K) (t : K),
      (bvhBuildAux axes objs 0 0).1.get? i = some o →
      o.candTime ops ray = some t → pointInBox (ray.at t) o.bbox := by
    intro i o t hget hc
    have ho : o ∈ objs := l2.mem_iff.mp (List.get?_mem hget)
    exact CB o ho t hc
  have hDP := sceneMake_index_dispatch ops axes objs amb dl hb
  have hF : List.Forall₂ (fun (id : ℤ) (sp : RangeSpec K) =>
      ∃ idn : ℕ, id = (idn : ℤ) ∧
      IsSubtree (sceneMake ops axes objs amb dl).nodes
        (bvhBuildAux axes objs 0 0).1 idn sp.lo sp.hi sp.ab)
      [((0 : ℕ) : ℤ)]
      ([⟨0, objs.length, aabbUnionList (bvhBuildAux axes objs 0 0).1⟩] :
        List (RangeSpec K)) := by
    refine List.forall₂_cons.mpr ⟨⟨0, rfl, ?_⟩, List.Forall₂.nil⟩
    simpa using hroot
  have hfold := traverse_foldl ops (sceneMake ops axes objs amb dl) ray tmin
    (bvhBuildAux axes objs 0 0).1 hdx hdy hdz hDP hCB
    (2 * (sceneMake ops axes objs amb dl).nodes.length + 2)
    [((0 : ℕ) : ℤ)]
    [⟨0, objs.length, aabbUnionList (bvhBuildAux axes objs 0 0).1⟩]
    (HitInfo.atTime tmax) (HitInfo.atTime tmax) hF
    (by
      simp only [List.map_cons, List.map_nil, List.sum_cons, List.sum_nil]
      have hnl : (sceneMake ops axes objs amb dl).nodes.length =
          2 * objs.length - 1 := l3
      omega)
  have hrange : objsRange (bvhBuildAux axes objs 0 0).1 0 objs.length =
      (bvhBuildAux axes objs 0 0).1 := by
    unfold objsRange
    rw [List.drop_zero, Nat.sub_zero, ← l1, List.take_length]
  simp only [List.map_cons, List.map_nil, List.flatten_cons,
    List.flatten_nil, List.append_nil, hrange] at hfold
  rw [bruteforce_eq_foldl ops axes objs amb dl ray tmin tmax hb]
  exact hfold

/-- Zero ambient light for concrete checks. -/
def ambW : AmbientLight ℚ := ⟨⟨0, 0, 0⟩⟩

/-- A concrete directional light for concrete checks. -/
def dlW : DirecLight ℚ := ⟨⟨0, -1, 0⟩, ⟨1, 1, 1⟩⟩

/-- A ray with all direction components nonzero, used in the C1 witness. -/
def rayW : Ray ℚ := ⟨⟨1 / 4, 1 / 4, 1⟩, ⟨1 / 100, 1 / 100, -1⟩⟩

/-- C1 witness: the BVH/bruteforce agreement theorem instantiated on a
concrete two-triangle scene and a concrete ray, with every hypothesis
(non-emptiness, bounded boxes, nonzero direction components, and the
candidate-in-box condition) discharged by evaluation. -/
theorem bvh_intersect_eq_bruteforce_witness :
    (sceneMake (qOps id) [0] [Obj.tri triW1, Obj.tri triW2] ambW
        dlW).bvh_intersect (qOps id) rayW (TMIN ℚ) (TMAX ℚ) =
      (sceneMake (qOps id) [0] [Obj.tri triW1, Obj.tri triW2] ambW
        dlW).bruteforce_intersect (qOps id) rayW (TMIN ℚ) (TMAX ℚ) :=
  bvh_intersect_eq_bruteforce (qOps id) [0] [Obj.tri triW1, Obj.tri triW2]
    ambW dlW rayW (TMIN ℚ) (TMAX ℚ)
    (by simp)
    (by
      intro o ho ax
      fin_cases ho <;> fin_cases ax <;>
        norm_num [Obj.bbox, triW1, triW2, TMAX, Vec3.comp])
    (by norm_num [rayW]) (by norm_num [rayW]) (by norm_num [rayW])
    (by
      intro o ho t hc
      fin_cases ho
      · simp only [Obj.candTime, Triangle.candTime, triW1, rayW, Vec3.cross,
          Vec3.dot, Obj.bbox] at hc ⊢
        norm_num at hc
        subst hc
        simp only [pointInBox, Ray.at, rayW, triW1, Vec3.comp]
        norm_num
      · simp only [Obj.candTime, Triangle.candTime, triW2, rayW, Vec3.cross,
          Vec3.dot] at hc
        norm_num at hc
        exact Option.noConfusion hc)

/-- Square-root lookup table for the C1 counterexample: the sphere
discriminant and the squared triangle normal are the only radicands
consulted whose value is observed. -/
def fC1 : ℚ → ℚ := fun q =>
  if q = 63935984016004 / 16000008000001 then 7995998 / 4000001
  else if q = 81 then 9 else 0

/-- Oracle for the C1 counterexample. -/
def opsC1 : RealOps ℚ := qOps fC1

/-- The triangle of the C1 counterexample: it spans the plane
`x = 9999999/2500000 (≈ 3.9999996)`, just in front of the sphere's box,
and its stored box is the vertex box padded by `±TMIN` as `init_triangle`
computes it. -/
def triC1 : Triangle ℚ :=
  ⟨1,
    ⟨9999999 / 2500000, -19980014000001 / 20000005000000,
      -20000014000001 / 20000005000000⟩,
    ⟨9999999 / 2500000, 40020000999999 / 20000005000000,
      -20000014000001 / 20000005000000⟩,
    ⟨9999999 / 2500000, -19980014000001 / 20000005000000,
      40000000999999 / 20000005000000⟩,
    ⟨⟨9997499 / 2500000, -20000014005001 / 20000005000000,
        -20020014005001 / 20000005000000⟩,
      ⟨10002499 / 2500000, 40040001004999 / 20000005000000,
        40020001004999 / 20000005000000⟩⟩,
    pbr0⟩

/-- The unit sphere of the C1 counterexample, centred at `(5,0,0)`, with
the exact box `init_sphere` computes. -/
def sphC1 : Sphere ℚ :=
  ⟨2, ⟨5, 0, 0⟩, 1, ⟨⟨4, -1, -1⟩, ⟨6, 1, 1⟩⟩, pbr0⟩

/-- The two-primitive object list of the C1 counterexample. -/
def objsC1 : List (Obj ℚ) := [Obj.tri triC1, Obj.sph sphC1]

/-- The C1 counterexample ray: it grazes the sphere near its west pole, so
the epsilon-perturbed near root lands in front of the sphere's box. -/
def rayC1 : Ray ℚ :=
  ⟨⟨0, -7996003 / 4000001, -8000003 / 4000001⟩, ⟨1, 1 / 2, 1 / 2⟩⟩

/-- The C1 counterexample scene. -/
def scC1 : SceneData ℚ := sceneMake opsC1 [0] objsC1 ambW dlW

/-- The hit record the triangle of the C1 counterexample produces. -/
def hitTC1 : HitInfo ℚ :=
  ⟨true, 9999999 / 2500000,
    ⟨9999999 / 2500000, 19990999999 / 20000005000000,
      -9000001 / 20000005000000⟩,
    ⟨-1, 0, 0⟩, true, 1, 0, 0, ⟨0, 0, 0⟩, 0, 0, ⟨0, 0, 0⟩, 0⟩

/-- The hit record the sphere of the C1 counterexample produces (normal and
texture fields take the oracle's defaults, which the disagreement does not
consult). -/
def hitSC1 : HitInfo ℚ :=
  ⟨true, 48000018000000 / 12000007000001,
    ⟨48000018000000 / 12000007000001, 11992003997 / 12000007000001,
      -8000003 / 12000007000001⟩,
    ⟨0, 0, 0⟩, false, 2, 1 / 2, 1 / 2, ⟨0, 0, 0⟩, 0, 0, ⟨0, 0, 0⟩, 0⟩

theorem sortC1 :
    sortObjects [Obj.tri triC1, Obj.sph sphC1] 0 =
      [Obj.tri triC1, Obj.sph sphC1] := by
  apply List.mergeSort_of_sorted
  simp [sortKey, triC1, sphC1, Vec3.comp, TMAX]
  norm_num

theorem buildC1 :
    bvhBuildAux [0] objsC1 0 0 =
      (objsC1,
        [⟨(Obj.tri triC1).bbox.union (Obj.sph sphC1).bbox, 1, 2, -1⟩,
          ⟨(Obj.tri triC1).bbox, -1, -1, 0⟩,
          ⟨(Obj.sph sphC1).bbox, -1, -1, 1⟩], []) := by
  simp only [objsC1]
  simp only [bvhBuildAux]
  simp only [List.headD_cons, List.tail_cons]
  rw [sortC1]
  norm_num [List.take, List.drop, bvhBuildAux, AABB.union]

theorem scC1_eq :
    scC1 =
      ⟨[triC1], [sphC1],
        [⟨(Obj.tri triC1).bbox.union (Obj.sph sphC1).bbox, 1, 2, -1⟩,
          ⟨(Obj.tri triC1).bbox, -1, -1, 0⟩,
          ⟨(Obj.sph sphC1).bbox, -1, -1, 1⟩], 0, [], ambW, dlW⟩ := by
  unfold scC1 sceneMake bvhBuild
  rw [buildC1]
  simp [objsC1, Obj.asTri, Obj.asSph, Obj.isEmitter, Obj.tag, List.enum,
    Obj.emission, Vec3.norm, Vec3.dot, opsC1, qOps, fC1, pbr0, triC1, sphC1]

theorem Vec3.eq_iff {K : Type} (a b : Vec3 K) :
    a = b ↔ a.x = b.x ∧ a.y = b.y ∧ a.z = b.z := by
  constructor
  · rintro rfl; exact ⟨rfl, rfl, rfl⟩
  · rcases a with ⟨ax, ay, az⟩
    rcases b with ⟨bx, by_, bz⟩
    rintro ⟨h1, h2, h3⟩
    simp_all

theorem triHitC1 :
    triC1.intersect opsC1 rayC1 (TMIN ℚ) (TMAX ℚ) = hitTC1 := by
  norm_num [Triangle.intersect, triC1, rayC1, opsC1, qOps, fC1, pbr0,
    TMIN, TMAX, Vec3.dot, Vec3.cross, Vec3.normalized, Vec3.norm, Ray.at,
    hitTC1, Vec3.eq_iff]

theorem sphHitC1 :
    sphC1.intersect opsC1 rayC1 (TMIN ℚ) (9999999 / 2500000) = hitSC1 := by
  norm_num [Sphere.intersect, sphC1, rayC1, opsC1, qOps, fC1, pbr0,
    TMIN, TMAX, EPSILON, Vec3.dot, Vec3.normalized, Vec3.norm, Ray.at,
    hitSC1, Vec3.eq_iff]

theorem bruteC1 :
    scC1.bruteforce_intersect opsC1 rayC1 (TMIN ℚ) (TMAX ℚ) = hitSC1 := by
  rw [scC1_eq]
  unfold SceneData.bruteforce_intersect
  simp only [List.foldl_cons, List.foldl_nil]
  rw [show (HitInfo.atTime (TMAX ℚ)).time = TMAX ℚ from rfl, triHitC1]
  norm_num [hitTC1, TMAX, HitInfo.atTime]
  rw [sphHitC1]
  norm_num [hitSC1, hitTC1]

theorem travC1_emp :
    scC1.traverse opsC1 rayC1 (TMIN ℚ) (4 + 1) [] hitTC1 hitTC1 =
      hitTC1 := by
  rw [SceneData.traverse]

theorem travC1_3 :
    scC1.traverse opsC1 rayC1 (TMIN ℚ) (5 + 1) [2] hitTC1 hitTC1 =
      hitTC1 := by
  rw [SceneData.traverse]
  rw [if_neg (by norm_num)]
  have hn : scC1.nodes.get? (2 : ℤ).toNat =
      some ⟨(Obj.sph sphC1).bbox, -1, -1, 1⟩ := by
    rw [scC1_eq]; rfl
  rw [hn]
  dsimp only
  rw [if_pos ?hc]
  case hc =>
    norm_num [AABB.intersect, AABB.slabStep, Obj.bbox, sphC1, rayC1,
      Vec3.comp, TMIN, hitTC1, min_def, max_def]
  exact travC1_emp

theorem travC1_2 :
    scC1.traverse opsC1 rayC1 (TMIN ℚ) (6 + 1) [1, 2]
      (HitInfo.atTime (TMAX ℚ)) (HitInfo.atTime (TMAX ℚ)) = hitTC1 := by
  rw [SceneData.traverse]
  rw [if_neg (by norm_num)]
  have hn : scC1.nodes.get? (1 : ℤ).toNat =
      some ⟨(Obj.tri triC1).bbox, -1, -1, 0⟩ := by
    rw [scC1_eq]; rfl
  rw [hn]
  dsimp only
  rw [if_neg ?hb]
  case hb =>
    norm_num [AABB.intersect, AABB.slabStep, Obj.bbox, triC1, rayC1,
      Vec3.comp, TMIN, TMAX, HitInfo.atTime, min_def, max_def]
  rw [if_pos (by norm_num)]
  have hTg : scC1.triangles = [triC1] := by rw [scC1_eq]
  rw [hTg]
  norm_num [HitInfo.atTime]
  rw [triHitC1]
  rw [if_pos (by norm_num [hitTC1, TMAX])]
  exact travC1_3

theorem travC1_1 :
    scC1.traverse opsC1 rayC1 (TMIN ℚ) (7 + 1) [0]
      (HitInfo.atTime (TMAX ℚ)) (HitInfo.atTime (TMAX ℚ)) = hitTC1 := by
  rw [SceneData.traverse]
  rw [if_neg (by norm_num)]
  have hn : scC1.nodes.get? (0 : ℤ).toNat =
      some ⟨(Obj.tri triC1).bbox.union (Obj.sph sphC1).bbox, 1, 2, -1⟩ := by
    rw [scC1_eq]; rfl
  rw [hn]
  dsimp only
  rw [if_neg ?hb]
  case hb =>
    norm_num [AABB.intersect, AABB.slabStep, AABB.union, Obj.bbox, triC1,
      sphC1, rayC1, Vec3.comp, Vec3.cmin, Vec3.cmax, TMIN, TMAX,
      HitInfo.atTime, min_def, max_def]
  rw [if_neg (by norm_num)]
  norm_num
  exact travC1_2

theorem bvhC1 :
    scC1.bvh_intersect opsC1 rayC1 (TMIN ℚ) (TMAX ℚ) = hitTC1 := by
  unfold SceneData.bvh_intersect
  have hf : 2 * scC1.nodes.length + 2 = 7 + 1 := by rw [scC1_eq]; rfl
  have hr : scC1.root_id = 0 := by rw [scC1_eq]
  rw [hf, hr]
  exact travC1_1

/-- C1 (refuted as stated): on this two-primitive scene (one triangle, one
unit sphere) and this ray, `bvh_intersect` reports the triangle (tag 1)
while `bruteforce_intersect` reports the sphere (tag 2), so the two
intersectors do not return the same hit primitive.  The cause: the
epsilon-perturbed near root of `Sphere.intersect` lies slightly in front
of the sphere's own bounding box, so after the triangle (placed between
the perturbed root and the box) becomes the best hit, the BVH prunes the
sphere's leaf, while the brute-force scan still lets the sphere win.  The
final conjuncts certify the square-root oracle's honesty on the two
radicands consulted. -/
theorem bvh_bruteforce_disagree_on_hit_primitive :
    (scC1.bvh_intersect opsC1 rayC1 (TMIN ℚ) (TMAX ℚ)).is_hit = true ∧
    (scC1.bvh_intersect opsC1 rayC1 (TMIN ℚ) (TMAX ℚ)).tag = 1 ∧
    (scC1.bvh_intersect opsC1 rayC1 (TMIN ℚ) (TMAX ℚ)).time =
      9999999 / 2500000 ∧
    (scC1.bruteforce_intersect opsC1 rayC1 (TMIN ℚ) (TMAX ℚ)).is_hit =
      true ∧
    (scC1.bruteforce_intersect opsC1 rayC1 (TMIN ℚ) (TMAX ℚ)).tag = 2 ∧
    (scC1.bruteforce_intersect opsC1 rayC1 (TMIN ℚ) (TMAX ℚ)).time =
      48000018000000 / 12000007000001 ∧
    ((7995998 / 4000001 : ℚ) ^ 2 = 63935984016004 / 16000008000001 ∧
      (0 : ℚ) ≤ 7995998 / 4000001 ∧ (9 : ℚ) ^ 2 = 81 ∧ (0 : ℚ) ≤ 9) := by
  rw [bvhC1, bruteC1]
  norm_num [hitTC1, hitSC1]

/-- The single fault a fixed-shape Taichi field write can raise: an
out-of-bounds index.  `Scene.__init__` allocates `light_map`, `triangles`
and `spheres` with `shape=maximum`; no code path checks a pointer against
`maximum` before writing. -/
inductive MakeFault where
  | indexOutOfBound
deriving Repr, DecidableEq

/-- The three fixed-capacity arrays `Scene.make` populates, each modelled
by the prefix written so far (the write pointers are the lengths). -/
structure SceneArrays (K : Type) where
  light_map : List ℕ
  triangles : List (Triangle K)
  spheres : List (Sphere K)
deriving Repr, DecidableEq

/-- One write into a Taichi field of shape `maximum`: the value lands at
the current pointer if it is in range and the write faults otherwise.
This is the field's own bound, not a check performed by `Scene.make` —
the population loop writes unconditionally. -/
def fieldWrite {α : Type} (maximum : ℕ) (arr : List α) (x : α) :
    Except MakeFault (List α) :=
  if arr.length < maximum then .ok (arr ++ [x]) else .error .indexOutOfBound

/-- The population loop of `Scene.make` over the (build-reordered) object
list: for each object, append its index to the light table if it is an
emitter, then append its entity to the per-shape array — every write
unchecked by the loop itself, exactly as in `scene.py`. -/
def scenePopulate {K : Type} [LinearOrderedField K] (ops : RealOps K)
    (maximum : ℕ) :
    List (Obj K) → ℕ → SceneArrays K → Except MakeFault (SceneArrays K)
  | [], _, st => .ok st
  | o :: rest, idx, st => do
    let st ←
      if o.isEmitter ops then do
        let lm ← fieldWrite maximum st.light_map idx
        pure { st with light_map := lm }
      else pure st
    let st ←
      match o with
      | .tri t => do
        let a ← fieldWrite maximum st.triangles t
        pure { st with triangles := a }
      | .sph s => do
        let a ← fieldWrite maximum st.spheres s
        pure { st with spheres := a }
    scenePopulate ops maximum rest (idx + 1) st

/-- C8 (refuted as stated): `Scene.make` performs no capacity validation
at all — neither `make` nor `add_obj` compares a write pointer against
`maximum` (the only `raise` in `add_obj` concerns argument types).  On a
scene of capacity 1 holding two triangles, the population pass simply runs
the second unchecked write into the full triangle array, so the failure
mode is a raw out-of-bounds field write (`indexOutOfBound`), not the
descriptive construction-time capacity error the spec promises; with
capacity 2 the same pass succeeds, confirming the fault is exactly the
overflowing write. -/
theorem scene_make_capacity_unchecked :
    scenePopulate (qOps id) 1 [Obj.tri triC1, Obj.tri triC1] 0
        ⟨[], [], []⟩ = .error .indexOutOfBound ∧
    scenePopulate (qOps id) 2 [Obj.tri triC1, Obj.tri triC1] 0
        ⟨[], [], []⟩ = .ok ⟨[], [triC1, triC1], []⟩ :=
  ⟨rfl, rfl⟩

theorem Vec3.dot_comm {K : Type} [CommRing K] (a b : Vec3 K) :
    a.dot b = b.dot a := by
  simp only [Vec3.dot]; ring

theorem Vec3.add_dot {K : Type} [CommRing K] (a b c : Vec3 K) :
    (a + b).dot c = a.dot c + b.dot c := by
  simp only [Vec3.dot, Vec3.add_x, Vec3.add_y, Vec3.add_z]; ring

theorem Vec3.dot_add {K : Type} [CommRing K] (a b c : Vec3 K) :
    a.dot (b + c) = a.dot b + a.dot c := by
  simp only [Vec3.dot, Vec3.add_x, Vec3.add_y, Vec3.add_z]; ring

theorem Vec3.smul_dot {K : Type} [CommRing K] (r : K) (a b : Vec3 K) :
    (r • a).dot b = r * a.dot b := by
  simp only [Vec3.dot, Vec3.smul_x, Vec3.smul_y, Vec3.smul_z]; ring

theorem Vec3.dot_smul {K : Type} [CommRing K] (r : K) (a b : Vec3 K) :
    a.dot (r • b) = r * a.dot b := by
  simp only [Vec3.dot, Vec3.smul_x, Vec3.smul_y, Vec3.smul_z]; ring

theorem Vec3.cross_dot_left {K : Type} [CommRing K] (a b : Vec3 K) :
    (a.cross b).dot a = 0 := by
  simp only [Vec3.dot, Vec3.cross]; ring

theorem Vec3.cross_dot_right {K : Type} [CommRing K] (a b : Vec3 K) :
    (a.cross b).dot b = 0 := by
  simp only [Vec3.dot, Vec3.cross]; ring

theorem Vec3.cross_dot_cross {K : Type} [CommRing K] (a b : Vec3 K) :
    (a.cross b).dot (a.cross b) = a.dot a * b.dot b - (a.dot b) ^ 2 := by
  simp only [Vec3.dot, Vec3.cross]; ring

theorem Vec3.normalized_dot {K : Type} [LinearOrderedField K]
    (ops : RealOps K) (w z : Vec3 K) :
    (w.normalized ops).dot z = w.dot z / w.norm ops := by
  simp only [Vec3.normalized, Vec3.dot]; ring

/-- Over the real oracle, normalizing a vector of positive dot square
yields a vector of unit dot square. -/
theorem normalized_dot_self (w : Vec3 ℝ) (h : 0 < w.dot w) :
    (w.normalized realOps).dot (w.normalized realOps) = 1 := by
  have hs : w.norm realOps * w.norm realOps = w.dot w := by
    simpa [Vec3.norm, realOps] using Real.mul_self_sqrt h.le
  have : (w.normalized realOps).dot (w.normalized realOps) =
      w.dot w / (w.norm realOps * w.norm realOps) := by
    simp only [Vec3.normalized, Vec3.dot]; ring
  rw [this, hs, div_self (ne_of_gt h)]

/-- Over the real oracle, a vector of unit dot square has norm exactly 1;
combined with `normalized_dot_self` this gives the unit length of every
`.normalized()` of a vector with nonzero dot square. -/
theorem norm_of_normalized (w : Vec3 ℝ) (h : 0 < w.dot w) :
    ((w.normalized realOps).norm realOps) = 1 := by
  show Real.sqrt _ = 1
  rw [normalized_dot_self w h, Real.sqrt_one]

/-- `Sampler.hemispherical_sample` from `renderer/sampler.py`, with the two
`self.kernel(_u,_v)` draws abstracted as the scalars `u` and `v` (so every
concrete sampler implementation is covered). -/
def hemispherical_sample {K : Type} [LinearOrderedField K] (ops : RealOps K)
    (n : Vec3 K) (u v : K) : Vec3 K :=
  let theta := ops.acos (ops.sqrt u)
  let phi := v * 2 * ops.pi
  let x := ops.sin theta * ops.cos phi
  let y := ops.sin theta * ops.sin phi
  let z := ops.cos theta
  let tangent :=
    if |n.x| > |n.y| then (⟨n.z, 0, -n.x⟩ : Vec3 K).normalized ops
    else (⟨0, n.z, -n.y⟩ : Vec3 K).normalized ops
  let bitangent := n.cross tangent
  let result := x • tangent + y • bitangent + z • n
  (⟨result.x * ops.cos theta / ops.pi, result.y * ops.cos theta / ops.pi,
    result.z * ops.cos theta / ops.pi⟩ : Vec3 K).normalized ops

/-- `Sampler.sample_cone` from `renderer/sampler.py`; the two kernel draws
enter only through `r` and `theta`, so they are abstracted as the already
combined scalars `k1` and `k2`. -/
def sample_cone {K : Type} [LinearOrderedField K] (ops : RealOps K)
    (dir : Vec3 K) (angle k1 k2 : K) : Vec3 K :=
  let z_axis := dir
  let temp : Vec3 K :=
    if |z_axis.dot ⟨1, 0, 0⟩| > 1 - EPSILON K then ⟨0, 1, 0⟩ else ⟨1, 0, 0⟩
  let x_axis := (temp.cross z_axis).normalized ops
  let y_axis := (z_axis.cross x_axis).normalized ops
  let r := ops.sqrt k1 * ops.tan (angle / 180 * ops.pi)
  let theta := 2 * ops.pi * k2
  let x := r * ops.cos theta
  let y := r * ops.sin theta
  (z_axis + x • x_axis + y • y_axis).normalized ops

/-- `reflect` from `renderer/utils.py`. -/
def reflect {K : Type} [LinearOrderedField K] (v n : Vec3 K) : Vec3 K :=
  v - (2 * v.dot n) • n

/-- `Sampler.ggx_sample` from `renderer/sampler.py`, kernel draws
abstracted as `u` and `v`. -/
def ggx_sample {K : Type} [LinearOrderedField K] (ops : RealOps K)
    (view n : Vec3 K) (alpha u v : K) : Vec3 K :=
  let alpha2 := alpha * alpha
  let phi := 2 * ops.pi * u
  let cos_theta := ops.sqrt ((1 - v) / (1 + (alpha2 - 1) * v))
  let sin_theta := ops.sqrt (1 - cos_theta * cos_theta)
  let h_tangent : Vec3 K :=
    ⟨sin_theta * ops.cos phi, cos_theta, sin_theta * ops.sin phi⟩
  let up : Vec3 K := if |n.y| > 999 / 1000 then ⟨1, 0, 0⟩ else ⟨0, 1, 0⟩
  let tangent := (up.cross n).normalized ops
  let bitangent := n.cross tangent
  let world_h0 :=
    h_tangent.x • tangent + h_tangent.y • n + h_tangent.z • bitangent
  let world_h := world_h0.normalized ops
  let l := reflect (-view) world_h
  l.normalized ops

/-- The squared length of a vector expressed in an orthonormal frame. -/
theorem frame_dot (x y z : ℝ) (t b nn : Vec3 ℝ)
    (htt : t.dot t = 1) (hbb : b.dot b = 1) (hnn : nn.dot nn = 1)
    (htb : t.dot b = 0) (htn : t.dot nn = 0) (hbn : b.dot nn = 0) :
    (x • t + y • b + z • nn).dot (x • t + y • b + z • nn) =
      x ^ 2 + y ^ 2 + z ^ 2 := by
  have hbt : b.dot t = 0 := (Vec3.dot_comm b t).trans htb
  have hnt : nn.dot t = 0 := (Vec3.dot_comm nn t).trans htn
  have hnb : nn.dot b = 0 := (Vec3.dot_comm nn b).trans hbn
  simp only [Vec3.add_dot, Vec3.dot_add, Vec3.smul_dot, Vec3.dot_smul,
    htt, hbb, hnn, htb, htn, hbn, hbt, hnt, hnb]
  ring

/-- The tangent `Sampler.hemispherical_sample` builds is a unit vector
orthogonal to the normal whenever the normal is unit. -/
theorem hemispherical_tangent_facts (n : Vec3 ℝ) (hn : n.dot n = 1) :
    ((if |n.x| > |n.y| then (⟨n.z, 0, -n.x⟩ : Vec3 ℝ).normalized realOps
      else (⟨0, n.z, -n.y⟩ : Vec3 ℝ).normalized realOps)).dot
      ((if |n.x| > |n.y| then (⟨n.z, 0, -n.x⟩ : Vec3 ℝ).normalized realOps
      else (⟨0, n.z, -n.y⟩ : Vec3 ℝ).normalized realOps)) = 1 ∧
    ((if |n.x| > |n.y| then (⟨n.z, 0, -n.x⟩ : Vec3 ℝ).normalized realOps
      else (⟨0, n.z, -n.y⟩ : Vec3 ℝ).normalized realOps)).dot n = 0 := by
  split_ifs with hxy
  · have hx0 : n.x ≠ 0 := by
      intro h0
      rw [h0, abs_zero] at hxy
      exact absurd hxy (not_lt.mpr (abs_nonneg n.y))
    have hpos : 0 < (⟨n.z, 0, -n.x⟩ : Vec3 ℝ).dot ⟨n.z, 0, -n.x⟩ := by
      simp only [Vec3.dot]
      nlinarith [sq_nonneg n.z, sq_nonneg n.x, sq_abs n.x,
        abs_pos.mpr hx0]
    refine ⟨normalized_dot_self _ hpos, ?_⟩
    rw [Vec3.normalized_dot]
    have : (⟨n.z, 0, -n.x⟩ : Vec3 ℝ).dot n = 0 := by
      simp only [Vec3.dot]; ring
    rw [this, zero_div]
  · push_neg at hxy
    have hpos : 0 < (⟨0, n.z, -n.y⟩ : Vec3 ℝ).dot ⟨0, n.z, -n.y⟩ := by
      simp only [Vec3.dot]
      rcases eq_or_ne n.y 0 with hy | hy
      · rcases eq_or_ne n.z 0 with hz | hz
        · exfalso
          have hx : n.x = 0 := by
            have := hxy
            rw [hy, abs_zero] at this
            exact abs_eq_zero.mp (le_antisymm this (abs_nonneg n.x))
          simp only [Vec3.dot, hx, hy, hz] at hn
          norm_num at hn
        · nlinarith [sq_nonneg n.y, sq_nonneg n.z, sq_abs n.z,
            abs_pos.mpr hz]
      · nlinarith [sq_nonneg n.y, sq_nonneg n.z, sq_abs n.y,
          abs_pos.mpr hy]
    refine ⟨normalized_dot_self _ hpos, ?_⟩
    rw [Vec3.normalized_dot]
    have : (⟨0, n.z, -n.y⟩ : Vec3 ℝ).dot n = 0 := by
      simp only [Vec3.dot]; ring
    rw [this, zero_div]

/-- `hemispherical_sample` over the real oracle returns a unit vector
whenever the normal is unit and the first kernel draw is in `(0, 1]`. -/
theorem hemispherical_sample_unit_aux (n : Vec3 ℝ) (u v : ℝ)
    (hn : n.dot n = 1) (hu0 : 0 < u) (hu1 : u ≤ 1) :
    ((hemispherical_sample realOps n u v).norm realOps) = 1 := by
  simp only [hemispherical_sample]
  set T := (if |n.x| > |n.y|
      then (⟨n.z, 0, -n.x⟩ : Vec3 ℝ).normalized realOps
      else (⟨0, n.z, -n.y⟩ : Vec3 ℝ).normalized realOps) with hTdef
  obtain ⟨hTT, hTn⟩ := hemispherical_tangent_facts n hn
  rw [← hTdef] at hTT hTn
  set theta := realOps.acos (realOps.sqrt u) with htheta
  set phi := v * 2 * realOps.pi with hphi
  set B := n.cross T with hB
  have hnT : n.dot T = 0 := (Vec3.dot_comm n T).trans hTn
  have hBB : B.dot B = 1 := by
    rw [hB, Vec3.cross_dot_cross, hn, hTT, hnT]; ring
  have hBn : B.dot n = 0 := Vec3.cross_dot_left n T
  have hBT : B.dot T = 0 := Vec3.cross_dot_right n T
  have hTB : T.dot B = 0 := (Vec3.dot_comm T B).trans hBT
  set x := realOps.sin theta * realOps.cos phi with hx
  set y := realOps.sin theta * realOps.sin phi with hy
  set z := realOps.cos theta with hz
  have hres := frame_dot x y z T B n hTT hBB hn hTB hTn hBn
  have hxyz : x ^ 2 + y ^ 2 + z ^ 2 = 1 := by
    have h1 : Real.sin theta ^ 2 + Real.cos theta ^ 2 = 1 :=
      Real.sin_sq_add_cos_sq theta
    have h2 : Real.sin phi ^ 2 + Real.cos phi ^ 2 = 1 :=
      Real.sin_sq_add_cos_sq phi
    have hxe : x = Real.sin theta * Real.cos phi := hx
    have hye : y = Real.sin theta * Real.sin phi := hy
    have hze : z = Real.cos theta := hz
    rw [hxe, hye, hze]
    nlinarith [h1, h2]
  have hcval : z = Real.sqrt u := by
    rw [hz, htheta]
    show Real.cos (Real.arccos (Real.sqrt u)) = _
    exact Real.cos_arccos
      (le_trans (by norm_num) (Real.sqrt_nonneg u))
      (Real.sqrt_le_one.mpr hu1)
  have hzpos : 0 < z := by rw [hcval]; exact Real.sqrt_pos.mpr hu0
  have hpi : (0 : ℝ) < realOps.pi := Real.pi_pos
  apply norm_of_normalized
  have hw : (⟨(x • T + y • B + z • n).x * z / realOps.pi,
      (x • T + y • B + z • n).y * z / realOps.pi,
      (x • T + y • B + z • n).z * z / realOps.pi⟩ : Vec3 ℝ).dot
      ⟨(x • T + y • B + z • n).x * z / realOps.pi,
        (x • T + y • B + z • n).y * z / realOps.pi,
        (x • T + y • B + z • n).z * z / realOps.pi⟩ =
      (z / realOps.pi) ^ 2 *
        ((x • T + y • B + z • n).dot (x • T + y • B + z • n)) := by
    simp only [Vec3.dot]; ring
  rw [hw, hres, hxyz, mul_one]
  positivity

/-- The squared length of the cone sample before its final
normalization. -/
theorem cone_dot (x y : ℝ) (z t b : Vec3 ℝ)
    (hzz : z.dot z = 1) (htt : t.dot t = 1) (hbb : b.dot b = 1)
    (hzt : z.dot t = 0) (hzb : z.dot b = 0) (htb : t.dot b = 0) :
    (z + x • t + y • b).dot (z + x • t + y • b) = 1 + x ^ 2 + y ^ 2 := by
  have htz : t.dot z = 0 := (Vec3.dot_comm t z).trans hzt
  have hbz : b.dot z = 0 := (Vec3.dot_comm b z).trans hzb
  have hbt : b.dot t = 0 := (Vec3.dot_comm b t).trans htb
  simp only [Vec3.add_dot, Vec3.dot_add, Vec3.smul_dot, Vec3.dot_smul,
    hzz, htt, hbb, hzt, hzb, htb, htz, hbz, hbt]
  ring

/-- `sample_cone` over the real oracle returns a unit vector whenever the
cone axis is unit — for every half-angle and every pair of kernel draws. -/
theorem sample_cone_unit_aux (dir : Vec3 ℝ) (angle k1 k2 : ℝ)
    (hd : dir.dot dir = 1) :
    ((sample_cone realOps dir angle k1 k2).norm realOps) = 1 := by
  simp only [sample_cone]
  set temp := (if |dir.dot ⟨1, 0, 0⟩| > 1 - EPSILON ℝ
      then (⟨0, 1, 0⟩ : Vec3 ℝ) else ⟨1, 0, 0⟩) with htemp
  have hw1pos : 0 < (temp.cross dir).dot (temp.cross dir) := by
    rw [Vec3.cross_dot_cross]
    rw [htemp]
    split_ifs with hbr
    · have hdx : |dir.dot ⟨1, 0, 0⟩| > 1 - EPSILON ℝ := hbr
      simp only [Vec3.dot, EPSILON] at hdx hd ⊢
      have habs : |dir.x * 1 + dir.y * 0 + dir.z * 0| = |dir.x| := by
        norm_num
      rw [habs] at hdx
      nlinarith [sq_abs dir.x, abs_nonneg dir.x, sq_nonneg dir.z,
        sq_nonneg dir.y]
    · push_neg at hbr
      simp only [Vec3.dot, EPSILON] at hbr hd ⊢
      have habs : |dir.x * 1 + dir.y * 0 + dir.z * 0| = |dir.x| := by
        norm_num
      rw [habs] at hbr
      nlinarith [sq_abs dir.x, abs_nonneg dir.x, sq_nonneg dir.y,
        sq_nonneg dir.z]
  set xA := (temp.cross dir).normalized realOps with hxa
  have hxx : xA.dot xA = 1 := normalized_dot_self _ hw1pos
  have hxz : xA.dot dir = 0 := by
    rw [hxa, Vec3.normalized_dot, Vec3.cross_dot_right, zero_div]
  have hzx : dir.dot xA = 0 := (Vec3.dot_comm dir xA).trans hxz
  have hw2pos : 0 < (dir.cross xA).dot (dir.cross xA) := by
    rw [Vec3.cross_dot_cross, hd, hxx, hzx]; norm_num
  set yA := (dir.cross xA).normalized realOps with hya
  have hyy : yA.dot yA = 1 := normalized_dot_self _ hw2pos
  have hyz : yA.dot dir = 0 := by
    rw [hya, Vec3.normalized_dot, Vec3.cross_dot_left, zero_div]
  have hyx : yA.dot xA = 0 := by
    rw [hya, Vec3.normalized_dot, Vec3.cross_dot_right, zero_div]
  apply norm_of_normalized
  rw [cone_dot _ _ dir xA yA hd hxx hyy
    ((Vec3.dot_comm dir xA).trans hxz) ((Vec3.dot_comm dir yA).trans hyz)
    ((Vec3.dot_comm xA yA).trans hyx)]
  positivity

theorem Vec3.sub_dot {K : Type} [CommRing K] (a b c : Vec3 K) :
    (a - b).dot c = a.dot c - b.dot c := by
  simp only [Vec3.dot, Vec3.sub_x, Vec3.sub_y, Vec3.sub_z]; ring

theorem Vec3.dot_sub {K : Type} [CommRing K] (a b c : Vec3 K) :
    a.dot (b - c) = a.dot b - a.dot c := by
  simp only [Vec3.dot, Vec3.sub_x, Vec3.sub_y, Vec3.sub_z]; ring

theorem Vec3.neg_dot {K : Type} [CommRing K] (a b : Vec3 K) :
    (-a).dot b = -(a.dot b) := by
  simp only [Vec3.dot, Vec3.neg_x, Vec3.neg_y, Vec3.neg_z]; ring

theorem Vec3.dot_neg {K : Type} [CommRing K] (a b : Vec3 K) :
    a.dot (-b) = -(a.dot b) := by
  simp only [Vec3.dot, Vec3.neg_x, Vec3.neg_y, Vec3.neg_z]; ring

/-- `reflect` preserves the squared length when the mirror normal is
unit. -/
theorem reflect_dot_self {K : Type} [LinearOrderedField K] (w m : Vec3 K)
    (hm : m.dot m = 1) :
    (reflect w m).dot (reflect w m) = w.dot w := by
  simp only [reflect, Vec3.sub_dot, Vec3.dot_sub, Vec3.smul_dot,
    Vec3.dot_smul, hm, Vec3.dot_comm m w]
  ring

/-- `ggx_sample` over the real oracle returns a unit vector whenever the
view and normal vectors are unit and the second kernel draw is in
`[0, 1)` — for every roughness and every first draw. -/
theorem ggx_sample_unit_aux (view n : Vec3 ℝ) (alpha u v : ℝ)
    (hv : view.dot view = 1) (hn : n.dot n = 1)
    (hv0 : 0 ≤ v) (hv1 : v < 1) :
    ((ggx_sample realOps view n alpha u v).norm realOps) = 1 := by
  simp only [ggx_sample]
  set up := (if |n.y| > 999 / 1000 then (⟨1, 0, 0⟩ : Vec3 ℝ)
      else ⟨0, 1, 0⟩) with hup
  have hw1pos : 0 < (up.cross n).dot (up.cross n) := by
    rw [Vec3.cross_dot_cross]
    rw [hup]
    split_ifs with hbr
    · simp only [Vec3.dot] at hn ⊢
      nlinarith [sq_abs n.y, abs_nonneg n.y, sq_nonneg n.x, sq_nonneg n.z]
    · push_neg at hbr
      simp only [Vec3.dot] at hn ⊢
      nlinarith [sq_abs n.y, abs_nonneg n.y, sq_nonneg n.x, sq_nonneg n.z]
  set t := (up.cross n).normalized realOps with ht
  have htt : t.dot t = 1 := normalized_dot_self _ hw1pos
  have htn : t.dot n = 0 := by
    rw [ht, Vec3.normalized_dot, Vec3.cross_dot_right, zero_div]
  have hnt : n.dot t = 0 := (Vec3.dot_comm n t).trans htn
  set b := n.cross t with hb
  have hbb : b.dot b = 1 := by
    rw [hb, Vec3.cross_dot_cross, hn, htt, hnt]; ring
  have hbn : b.dot n = 0 := Vec3.cross_dot_left n t
  have hbt : b.dot t = 0 := Vec3.cross_dot_right n t
  set c := realOps.sqrt ((1 - v) / (1 + (alpha * alpha - 1) * v)) with hc
  set s := realOps.sqrt (1 - c * c) with hs
  have hden : 0 < 1 + (alpha * alpha - 1) * v := by nlinarith [sq_nonneg alpha]
  have hcsq : c * c = (1 - v) / (1 + (alpha * alpha - 1) * v) := by
    rw [hc]
    exact Real.mul_self_sqrt (div_nonneg (by linarith) hden.le)
  have hcle : c * c ≤ 1 := by
    rw [hcsq, div_le_one hden]
    nlinarith [sq_nonneg alpha]
  have hssq : s * s = 1 - c * c := by
    rw [hs]
    exact Real.mul_self_sqrt (by linarith)
  have hphi : realOps.sin (2 * realOps.pi * u) ^ 2 +
      realOps.cos (2 * realOps.pi * u) ^ 2 = 1 :=
    Real.sin_sq_add_cos_sq (2 * realOps.pi * u)
  have hone : ((s * realOps.cos (2 * realOps.pi * u)) • t + c • n +
      (s * realOps.sin (2 * realOps.pi * u)) • b).dot
      ((s * realOps.cos (2 * realOps.pi * u)) • t + c • n +
        (s * realOps.sin (2 * realOps.pi * u)) • b) = 1 := by
    have hnn2 : n.dot n = 1 := hn
    have htb2 : t.dot b = 0 := (Vec3.dot_comm t b).trans hbt
    have hnb2 : n.dot b = 0 := (Vec3.dot_comm n b).trans hbn
    simp only [Vec3.add_dot, Vec3.dot_add, Vec3.smul_dot, Vec3.dot_smul,
      htt, hbb, hnn2, htn, hnt, hbn, hbt, htb2, hnb2]
    have hphi2 := hphi
    linear_combination (s * s) * hphi2 + hssq
  have hwhpos : 0 <
      ((s * realOps.cos (2 * realOps.pi * u)) • t + c • n +
        (s * realOps.sin (2 * realOps.pi * u)) • b).dot
      ((s * realOps.cos (2 * realOps.pi * u)) • t + c • n +
        (s * realOps.sin (2 * realOps.pi * u)) • b) := by
    rw [hone]; norm_num
  set wh := (((s * realOps.cos (2 * realOps.pi * u)) • t + c • n +
      (s * realOps.sin (2 * realOps.pi * u)) • b).normalized realOps)
    with hwh
  have hwhwh : wh.dot wh = 1 := normalized_dot_self _ hwhpos
  apply norm_of_normalized
  rw [reflect_dot_self _ _ hwhwh, Vec3.neg_dot, Vec3.dot_neg, neg_neg, hv]
  norm_num

/-- C9 (amended): with a unit normal / axis / view vector the three
sampler routines return unit-length directions under the stated draw
conditions — `hemispherical_sample` needs its first kernel draw in
`(0, 1]`, `sample_cone` is unconditional in the draws, and `ggx_sample`
needs its second draw in `[0, 1)`.  Unit length is NOT unconditional: at
a first draw of exactly `0` the hemispherical intermediate vector
collapses to zero before the final `.normalized()` (see the accompanying
counterexample), which in float semantics is `0/0 = NaN`. -/
theorem sampler_unit_lengths (n dir view nrm : Vec3 ℝ)
    (u v angle k1 k2 alpha gu gv : ℝ)
    (hn : n.dot n = 1) (hu0 : 0 < u) (hu1 : u ≤ 1)
    (hd : dir.dot dir = 1)
    (hview : view.dot view = 1) (hnrm : nrm.dot nrm = 1)
    (hgv0 : 0 ≤ gv) (hgv1 : gv < 1) :
    (hemispherical_sample realOps n u v).norm realOps = 1 ∧
    (sample_cone realOps dir angle k1 k2).norm realOps = 1 ∧
    (ggx_sample realOps view nrm alpha gu gv).norm realOps = 1 :=
  ⟨hemispherical_sample_unit_aux n u v hn hu0 hu1,
    sample_cone_unit_aux dir angle k1 k2 hd,
    ggx_sample_unit_aux view nrm alpha gu gv hview hnrm hgv0 hgv1⟩

/-- C9 witness: the sampler unit-length theorem instantiated at the unit
`z` axis with concrete in-range draws. -/
theorem sampler_unit_lengths_witness :
    ((⟨0, 0, 1⟩ : Vec3 ℝ).dot ⟨0, 0, 1⟩ = 1 ∧ (0 : ℝ) < 1 / 2 ∧
      (1 / 2 : ℝ) ≤ 1 ∧ (0 : ℝ) ≤ 0 ∧ (0 : ℝ) < 1) ∧
    (hemispherical_sample realOps ⟨0, 0, 1⟩ (1 / 2) 0).norm realOps = 1 ∧
    (sample_cone realOps ⟨0, 0, 1⟩ 30 0 0).norm realOps = 1 ∧
    (ggx_sample realOps ⟨0, 0, 1⟩ ⟨0, 0, 1⟩ (1 / 2) 0 0).norm
      realOps = 1 := by
  have hdot : (⟨0, 0, 1⟩ : Vec3 ℝ).dot ⟨0, 0, 1⟩ = 1 := by
    norm_num [Vec3.dot]
  have h := sampler_unit_lengths ⟨0, 0, 1⟩ ⟨0, 0, 1⟩ ⟨0, 0, 1⟩ ⟨0, 0, 1⟩
    (1 / 2) 0 30 0 0 (1 / 2) 0 0 hdot (by norm_num) (by norm_num) hdot
    hdot hdot (by norm_num) (by norm_num)
  exact ⟨⟨hdot, by norm_num, by norm_num, le_refl 0, by norm_num⟩,
    h.1, h.2.1, h.2.2⟩

/-- C9 counterexample to the unconditional claim: when the first kernel
draw is exactly `0` (a value `ti.random()` can return), `cos θ =
cos (arccos √0) = 0`, so the vector handed to the final `.normalized()`
is the zero vector and the returned "direction" has length 0 — in real
float arithmetic, `0/0 = NaN` — even for a perfectly unit normal. -/
theorem hemispherical_sample_zero_at_zero_draw :
    (hemispherical_sample realOps ⟨0, 0, 1⟩ 0 0).norm realOps = 0 := by
  have h0 : realOps.cos (realOps.acos (realOps.sqrt 0)) = 0 := by
    show Real.cos (Real.arccos (Real.sqrt 0)) = 0
    rw [Real.sqrt_zero, Real.arccos_zero, Real.cos_pi_div_two]
  simp only [hemispherical_sample, h0, mul_zero, zero_mul, zero_div]
  have hz : ((⟨0, 0, 0⟩ : Vec3 ℝ)).normalized realOps = ⟨0, 0, 0⟩ := by
    simp [Vec3.normalized, Vec3.norm, Vec3.dot]
  rw [hz]
  show Real.sqrt ((⟨0, 0, 0⟩ : Vec3 ℝ).dot ⟨0, 0, 0⟩) = 0
  simp [Vec3.dot]

/-- Taichi vector-by-scalar division, component-wise. -/
def vecDivS {K : Type} [DivisionRing K] (a : Vec3 K) (s : K) : Vec3 K :=
  ⟨a.x / s, a.y / s, a.z / s⟩

/-- `refract` from `renderer/utils.py`. -/
def refract {K : Type} [LinearOrderedField K] (ops : RealOps K)
    (v n : Vec3 K) (ior : K) : Vec3 K :=
  let cos_theta := -(v.dot n)
  let eta := if 0 < cos_theta then 1 / ior else ior
  let normal := if 0 < cos_theta then n else -n
  let cos_theta := |cos_theta|
  let k := 1 - eta * eta * (1 - cos_theta * cos_theta)
  if k < 0 then reflect v n
  else eta • v + (eta * cos_theta - ops.sqrt k) • normal

/-- `schlick_fresnel` from `renderer/utils.py`; `PathTracer.ray_color`
passes the vector `F0` for the scalar `ior` parameter, so taichi
broadcasts the formula component-wise, which is embedded directly. -/
def schlick_fresnelV {K : Type} [LinearOrderedField K] (cos_theta : K)
    (ior : Vec3 K) : Vec3 K :=
  let r0 : Vec3 K := ⟨((1 - ior.x) / (1 + ior.x)) ^ 2,
    ((1 - ior.y) / (1 + ior.y)) ^ 2, ((1 - ior.z) / (1 + ior.z)) ^ 2⟩
  r0 + ((1 - cos_theta) ^ 5) • (⟨1, 1, 1⟩ - r0)

/-- `ggx_distribution` from `renderer/utils.py`. -/
def ggx_distribution {K : Type} [LinearOrderedField K] (ops : RealOps K)
    (n h : Vec3 K) (roughness : K) : K :=
  let alpha := roughness * roughness
  let alpha2 := alpha * alpha
  let NdotH := Max.max (n.dot h) 0
  let NdotH2 := NdotH * NdotH
  let denom0 := Max.max (NdotH2 * (alpha2 - 1) + 1) 0
  let denom := ops.pi * denom0 * denom0
  alpha2 / Max.max denom (EPSILON K)

/-- `geometry_schlick_ggx` from `renderer/utils.py`. -/
def geometry_schlick_ggx {K : Type} [LinearOrderedField K]
    (ndotv k : K) : K :=
  ndotv / (ndotv * (1 - k) + k)

/-- `geometry_smith` from `renderer/utils.py`. -/
def geometry_smith {K : Type} [LinearOrderedField K] (ndotv vdotl k : K) :
    K :=
  geometry_schlick_ggx ndotv k * geometry_schlick_ggx vdotl k

/-- `direct_remapping` from `renderer/utils.py`. -/
def direct_remapping {K : Type} [LinearOrderedField K] (alpha : K) : K :=
  (1 + alpha) * (1 + alpha) / 8

/-- The scalar parameters of `PathTracer.__init__`. -/
structure PTParams (K : Type) where
  max_depth : ℕ
  ambient_rate : K
  direct_light_weight : K
  p_rr : K

/-- The PBR branch of `PathTracer.ray_color` (direct lighting, then the
specular/diffuse scatter choice, then emission), returning the updated
`(color_buffer, luminance, ray, rng)` state.  `ti.random()` and the
`UniformSampler.kernel` draws are consumed from the explicit stream; the
direct-light sampler is the oracle `dl` (its source, `sample_direct_light`
in `renderer/base.py`, dereferences `scene.mesh` — an attribute the
`Scene` class does not define — so it cannot be embedded against the
actual scene). -/
def pbrShade {K : Type} [LinearOrderedField K] (ops : RealOps K)
    (P : PTParams K)
    (dl : Vec3 K → Vec3 K → List K → Ray K × Vec3 K × List K)
    (h : HitInfo K) (ray : Ray K) (color lum : Vec3 K) (rng : List K) :
    Vec3 K × Vec3 K × Ray K × List K :=
  let N := h.normal
  let V := -ray.dir
  let F0 := (1 - h.metallic) • (⟨2 / 5, 2 / 5, 2 / 5⟩ : Vec3 K) +
    h.metallic • h.albedo
  let NdotV := Max.max (N.dot V) 0
  let alpha := h.roughness * h.roughness
  let dres :=
    if 0 < P.direct_light_weight then
      let lr := dl h.pos h.normal rng
      let L := lr.1.dir
      let light_color := lr.2.1
      let rng' := lr.2.2
      let NdotL := Max.max (h.normal.dot L) 0
      if 0 < NdotL then
        let H := (V + L).normalized ops
        let VdotL := Max.max (V.dot L) 0
        let HdotV := Max.max (H.dot V) 0
        let k := direct_remapping alpha
        let NDF := ggx_distribution ops h.normal H h.roughness
        let G := geometry_smith NdotV VdotL k
        let F := schlick_fresnelV HdotV F0
        let ks := F
        let kd := (1 - h.metallic) • ((⟨1, 1, 1⟩ : Vec3 K) - ks)
        let nominator := (NDF * G) • F
        let denom := 4 * NdotV * NdotL + EPSILON K
        let specular := vecDivS nominator denom
        (color + (NdotL * P.direct_light_weight) •
          ((vecDivS (kd * h.albedo) ops.pi + specular) * lum *
            light_color), rng')
      else (color, rng')
    else (color, rng)
  let color1 := dres.1
  let rng1 := dres.2
  let perfect_reflect := reflect ray.dir h.normal
  let r2 := rng1.headD 0
  let rng2 := rng1.tail
  if r2 < h.metallic then
    let sres :=
      if 0 < h.roughness then
        (ggx_sample ops V h.normal alpha (rng2.headD 0)
          (rng2.tail.headD 0), rng2.tail.tail)
      else (perfect_reflect, rng2)
    let lum' := lum * h.albedo
    (color1 + lum' * h.emission, lum', ⟨h.pos, sres.1⟩, sres.2)
  else
    let scatter := hemispherical_sample ops h.normal (rng2.headD 0)
      (rng2.tail.headD 0)
    let cos_term := Max.max 0 (scatter.dot h.normal)
    let lum' := (cos_term * ops.pi) • (lum * h.albedo)
    (color1 + lum' * h.emission, lum', ⟨h.pos, scatter⟩,
      rng2.tail.tail)

mutual

/-- The body of one `ray_color` bounce after the Russian-roulette gate:
intersect, then shade (PBR / glass / fall-through) and recurse, or add the
background contribution and stop. -/
def rayColorStep {K : Type} [LinearOrderedField K] (ops : RealOps K)
    (P : PTParams K) (sc : SceneData K)
    (dl : Vec3 K → Vec3 K → List K → Ray K × Vec3 K × List K)
    (ddl : Vec3 K → Vec3 K → List K → Vec3 K)
    (d bounce : ℕ) (color lum : Vec3 K) (ray : Ray K) (rng : List K) :
    Vec3 K :=
  let h := sc.intersect ops ray (TMIN K) (TMAX K)
  if h.is_hit = true ∧ TMIN K < h.time then
    if h.tag = 0 then
      let s := pbrShade ops P dl h ray color lum rng
      rayColorLoop ops P sc dl ddl d (bounce + 1) s.1 s.2.1 s.2.2.1 s.2.2.2
    else if h.tag = 1 then
      rayColorLoop ops P sc dl ddl d (bounce + 1) color (lum * h.albedo)
        ⟨h.pos, refract ops ray.dir h.normal h.refraction⟩ rng
    else rayColorLoop ops P sc dl ddl d (bounce + 1) color lum ray rng
  else
    let bg := sc.ambient_light.color
    if 0 < bounce then
      let color' := color + P.ambient_rate • (bg * lum)
      color' + P.direct_light_weight • (ddl ray.origin ray.dir rng * lum)
    else color + bg * lum
termination_by (d, 2)

/-- The bounce loop of `PathTracer.ray_color`: the Russian-roulette draw
and the throughput division happen only for `bounce > 0` (the `and` in
`if bounce > 0 and ti.random() > self.p_rr[None]` short-circuits, so no
draw is consumed on the first bounce). -/
def rayColorLoop {K : Type} [LinearOrderedField K] (ops : RealOps K)
    (P : PTParams K) (sc : SceneData K)
    (dl : Vec3 K → Vec3 K → List K → Ray K × Vec3 K × List K)
    (ddl : Vec3 K → Vec3 K → List K → Vec3 K) :
    ℕ → ℕ → Vec3 K → Vec3 K → Ray K → List K → Vec3 K
  | 0, _, color, _, _, _ => color
  | d + 1, bounce, color, lum, ray, rng =>
    if 0 < bounce then
      let r := rng.headD 0
      let rng' := rng.tail
      if P.p_rr < r then color
      else rayColorStep ops P sc dl ddl d bounce color (vecDivS lum P.p_rr)
        ray rng'
    else rayColorStep ops P sc dl ddl d bounce color lum ray rng
termination_by f _ _ _ _ _ => (f, 1)

end

/-- `PathTracer.ray_color`: run the loop from bounce 0 with black
accumulator and unit throughput, for `max_depth` iterations. -/
def ray_color {K : Type} [LinearOrderedField K] (ops : RealOps K)
    (P : PTParams K) (sc : SceneData K)
    (dl : Vec3 K → Vec3 K → List K → Ray K × Vec3 K × List K)
    (ddl : Vec3 K → Vec3 K → List K → Vec3 K)
    (ray : Ray K) (rng : List K) : Vec3 K :=
  rayColorLoop ops P sc dl ddl P.max_depth 0 ⟨0, 0, 0⟩ ⟨1, 1, 1⟩ ray rng

/-- C6: the Russian-roulette gate of `PathTracer.ray_color`.  On a bounce
of positive index the head of the random stream is drawn: if it exceeds
`p_rr` the loop breaks at once with the accumulated colour untouched, and
otherwise the bounce body runs with the throughput divided by `p_rr`; on
the very first bounce no draw is consumed and no division happens.  The
drawn value is uniform on `[0,1)`, and the measure of the terminating
event `{x | p_rr < x}` inside `[0,1)` is exactly `1 - p_rr`. -/
theorem ray_color_russian_roulette
    (ops : RealOps ℝ) (P : PTParams ℝ) (sc : SceneData ℝ)
    (dl : Vec3 ℝ → Vec3 ℝ → List ℝ → Ray ℝ × Vec3 ℝ × List ℝ)
    (ddl : Vec3 ℝ → Vec3 ℝ → List ℝ → Vec3 ℝ)
    (d bounce : ℕ) (color lum : Vec3 ℝ) (ray : Ray ℝ) (r : ℝ)
    (rng : List ℝ)
    (hb : 0 < bounce) (hp0 : 0 ≤ P.p_rr) (hp1 : P.p_rr ≤ 1) :
    (P.p_rr < r →
      rayColorLoop ops P sc dl ddl (d + 1) bounce color lum ray
        (r :: rng) = color) ∧
    (r ≤ P.p_rr →
      rayColorLoop ops P sc dl ddl (d + 1) bounce color lum ray
        (r :: rng) =
        rayColorStep ops P sc dl ddl d bounce color (vecDivS lum P.p_rr)
          ray rng) ∧
    (rayColorLoop ops P sc dl ddl (d + 1) 0 color lum ray rng =
      rayColorStep ops P sc dl ddl d 0 color lum ray rng) ∧
    MeasureTheory.volume {x ∈ Set.Ico (0 : ℝ) 1 | P.p_rr < x} =
      ENNReal.ofReal (1 - P.p_rr) := by
  refine ⟨?_, ?_, ?_, ?_⟩
  · intro hr
    rw [rayColorLoop, if_pos hb]
    dsimp only
    simp only [List.headD_cons, List.tail_cons]
    rw [if_pos hr]
  · intro hr
    rw [rayColorLoop, if_pos hb]
    dsimp only
    simp only [List.headD_cons, List.tail_cons]
    rw [if_neg (not_lt.mpr hr)]
  · rw [rayColorLoop, if_neg (lt_irrefl 0)]
  · have hset : {x ∈ Set.Ico (0 : ℝ) 1 | P.p_rr < x} =
        Set.Ioo P.p_rr 1 := by
      ext x
      simp only [Set.mem_setOf_eq, Set.mem_Ico, Set.mem_Ioo]
      constructor
      · rintro ⟨⟨_, h1⟩, h2⟩
        exact ⟨h2, h1⟩
      · rintro ⟨h2, h1⟩
        exact ⟨⟨le_trans hp0 h2.le, h1⟩, h2⟩
    rw [hset, Real.volume_Ioo]

/-- A trivial direct-light oracle used in concrete checks. -/
def dlZero {K : Type} [LinearOrderedField K] :
    Vec3 K → Vec3 K → List K → Ray K × Vec3 K × List K :=
  fun _ _ rng => (⟨⟨0, 0, 0⟩, ⟨0, 0, 0⟩⟩, ⟨0, 0, 0⟩, rng)

/-- A trivial directional-light oracle used in concrete checks. -/
def ddlZero {K : Type} [LinearOrderedField K] :
    Vec3 K → Vec3 K → List K → Vec3 K :=
  fun _ _ _ => ⟨0, 0, 0⟩

/-- A concrete empty real scene with a distinctive flat ambient colour. -/
noncomputable def scE : SceneData ℝ :=
  ⟨[], [], [], 0, [], ⟨⟨1, 2, 3⟩⟩, ⟨⟨0, -1, 0⟩, ⟨1, 1, 1⟩⟩⟩

/-- Concrete path-tracer parameters (`max_depth 1`, `p_rr 4/5`). -/
noncomputable def PE : PTParams ℝ := ⟨1, 1 / 10, 1, 4 / 5⟩

/-- C6 witness: the Russian-roulette theorem at bounce 1 with the draw
`9/10 > p_rr = 4/5`: the loop breaks with the accumulated colour, and the
termination event has measure `1/5`. -/
theorem ray_color_russian_roulette_witness :
    ((0 : ℕ) < 1 ∧ (0 : ℝ) ≤ 4 / 5 ∧ (4 / 5 : ℝ) ≤ 1 ∧
      (4 / 5 : ℝ) < 9 / 10) ∧
    rayColorLoop realOps PE scE dlZero ddlZero 1 1 ⟨5, 6, 7⟩ ⟨1, 1, 1⟩
      ⟨⟨0, 0, 0⟩, ⟨0, 0, 1⟩⟩ [9 / 10] = ⟨5, 6, 7⟩ ∧
    MeasureTheory.volume {x ∈ Set.Ico (0 : ℝ) 1 | PE.p_rr < x} =
      ENNReal.ofReal (1 - PE.p_rr) := by
  have h := ray_color_russian_roulette realOps PE scE dlZero ddlZero 0 1
    ⟨5, 6, 7⟩ ⟨1, 1, 1⟩ ⟨⟨0, 0, 0⟩, ⟨0, 0, 1⟩⟩ (9 / 10) []
    (by norm_num) (by norm_num [PE]) (by norm_num [PE])
  exact ⟨⟨by norm_num, by norm_num, by norm_num, by norm_num⟩,
    h.1 (by norm_num [PE]), h.2.2.2⟩

/-- C7 (refuted as stated and amended): when a ray escapes the scene on
the very first bounce, `PathTracer.ray_color` adds the scene's single
flat ambient colour times the (unit) throughput and stops.  There is no
"bottom"/"top" pair and no interpolation by the vertical direction
component anywhere in `ray_color` — the result is independent of the ray
direction (the right-hand side below does not mention the ray at all). -/
theorem ray_color_first_bounce_flat_background {K : Type}
    [LinearOrderedField K] (ops : RealOps K) (P : PTParams K)
    (sc : SceneData K)
    (dl : Vec3 K → Vec3 K → List K → Ray K × Vec3 K × List K)
    (ddl : Vec3 K → Vec3 K → List K → Vec3 K)
    (ray : Ray K) (rng : List K)
    (hd : 0 < P.max_depth)
    (hmiss : (sc.intersect ops ray (TMIN K) (TMAX K)).is_hit = false) :
    ray_color ops P sc dl ddl ray rng = sc.ambient_light.color := by
  unfold ray_color
  obtain ⟨d, hd'⟩ : ∃ d, P.max_depth = d + 1 :=
    ⟨P.max_depth - 1, by omega⟩
  rw [hd']
  rw [rayColorLoop, if_neg (lt_irrefl 0)]
  rw [rayColorStep]
  rw [if_neg (by rw [hmiss]; rintro ⟨h1, -⟩; exact Bool.false_ne_true h1)]
  dsimp only
  rw [if_neg (lt_irrefl 0)]
  rcases sc.ambient_light with ⟨⟨bx, by_, bz⟩⟩
  apply (Vec3.eq_iff _ _).mpr
  refine ⟨?_, ?_, ?_⟩ <;>
    simp [Vec3.add_x, Vec3.add_y, Vec3.add_z, Vec3.mul_x, Vec3.mul_y,
      Vec3.mul_z]

/-- C7 witness: the flat-background theorem on a concrete empty rational
scene with ambient colour `(1,2,3)`. -/
theorem ray_color_first_bounce_flat_background_witness :
    ((0 : ℕ) < 1 ∧
      ((⟨[], [], [], 0, [], ⟨⟨1, 2, 3⟩⟩, dlW⟩ :
          SceneData ℚ).intersect (qOps id) ⟨⟨0, 0, 0⟩, ⟨0, 0, 1⟩⟩
        (TMIN ℚ) (TMAX ℚ)).is_hit = false) ∧
    ray_color (qOps id) ⟨1, 1 / 10, 1, 4 / 5⟩
      ⟨[], [], [], 0, [], ⟨⟨1, 2, 3⟩⟩, dlW⟩ dlZero ddlZero
      ⟨⟨0, 0, 0⟩, ⟨0, 0, 1⟩⟩ [] = ⟨1, 2, 3⟩ :=
  ⟨⟨by norm_num, rfl⟩,
    ray_color_first_bounce_flat_background (qOps id) ⟨1, 1 / 10, 1, 4 / 5⟩
      ⟨[], [], [], 0, [], ⟨⟨1, 2, 3⟩⟩, dlW⟩ dlZero ddlZero
      ⟨⟨0, 0, 0⟩, ⟨0, 0, 1⟩⟩ [] (by norm_num) rfl⟩

/-- C7 counterexample to the interpolation claim: on an empty scene with
ambient colour `(1,2,3)`, rays pointing straight up and straight down
receive exactly the same background contribution on the first bounce, so
the contribution cannot be any non-constant interpolation between a
"bottom" and a "top" colour by the vertical direction component. -/
theorem ray_color_background_ignores_direction :
    ray_color (qOps id) ⟨1, 1 / 10, 1, 4 / 5⟩
        ⟨[], [], [], 0, [], ⟨⟨1, 2, 3⟩⟩, dlW⟩ dlZero ddlZero
        ⟨⟨0, 0, 0⟩, ⟨0, 1, 0⟩⟩ [] = ⟨1, 2, 3⟩ ∧
    ray_color (qOps id) ⟨1, 1 / 10, 1, 4 / 5⟩
        ⟨[], [], [], 0, [], ⟨⟨1, 2, 3⟩⟩, dlW⟩ dlZero ddlZero
        ⟨⟨0, 0, -1⟩, ⟨0, -1, 0⟩⟩ [] = ⟨1, 2, 3⟩ := by
  constructor <;>
  · show rayColorLoop _ _ _ _ _ (0 + 1) 0 _ _ _ _ = _
    rw [rayColorLoop, if_neg (lt_irrefl 0), rayColorStep]
    rw [if_neg (by rintro ⟨h1, -⟩; exact Bool.false_ne_true h1)]
    dsimp only
    rw [if_neg (lt_irrefl 0)]
    apply (Vec3.eq_iff _ _).mpr
    refine ⟨?_, ?_, ?_⟩ <;> norm_num
